import Mathlib

/-!
Verification of the "친해지길 바라" (friendly game) board-game engine.

Shallow embedding of the two Python engines:
  * `BoardB` embeds `board_B/board_B_python/game.py` (scoring + 50-cell yut race),
  * `BoardA` embeds `board_A/board_A_python/game.py` (scoring only).

Modelling conventions:
  * Python `int` fields that the program provably keeps non-negative
    (score, counts, throw_chance, position, ...) are `Nat`; the single
    subtraction (`throw_chance -= 1`) is guarded by `throw_chance > 0` in the
    source, so truncated subtraction agrees with Python.  The user-supplied
    `participant_count` may be negative, so it is `Int`.
  * `datetime.now()` is an external input: every operation that reads the clock
    takes a `now : String` parameter, used for timestamps.
  * `random` is an external input (the spec requires an injectable random
    source): `throw_yut` takes the drawn `YutOutcome` as a parameter, and the
    reachability relation quantifies over the outcomes in `YUT_OUTCOMES`.
  * `_new_id` (timestamp+random) is an external input: `add_team` takes the
    generated id as a parameter; the reachability relation assumes it fresh,
    matching the uniqueness invariant of the id generator.
  * `save()` writes the snapshot to disk; persistence is an external
    collaborator, so in the model the returned `Game` value is the snapshot and
    `save` is the identity.  `load()` is modelled over an abstract store value
    (absent / unparseable / parsed payload), since file IO and JSON decoding
    are outside the engine.
  * Python `Dict[str, int]` maps keyed by the four fixed categories are a
    4-field record `CatMap` with string-keyed accessors.
-/

namespace BoardB

/-- Constants from `board_B_python/game.py`. -/
def FINISH_POS : Nat := 50

def CHECKPOINT_INTERVAL : Nat := 10

def SCORE_PER_THROW : Nat := 40

def BASE_POINTS : Nat := 10

/-- `DIFFICULTY_POINTS` dict as an association lookup. -/
def DIFFICULTY_POINTS (d : String) : Option Nat :=
  if d = "easy" then some 10
  else if d = "medium" then some 20
  else if d = "hard" then some 30
  else none

def TEAM_MEMBER_BONUS_POINTS : Nat := 20

def TEAM_MEMBER_BONUS_START : Nat := 3

def SET_BONUS_POINTS : Nat := 40

def LINE_BONUS_POINTS : Nat := 25

def LINE_THRESHOLD : Nat := 3

def CATEGORIES : List String := ["talk", "teamplay", "help", "challenge"]

/-- A `Dict[str, int]` whose keys are exactly the four categories. -/
structure CatMap where
  talk : Nat
  teamplay : Nat
  help : Nat
  challenge : Nat
deriving DecidableEq, Repr

/-- `{c: 0 for c in CATEGORIES}`. -/
def CatMap.zero : CatMap := ⟨0, 0, 0, 0⟩

/-- Dictionary read `m[c]` (the program only reads the four category keys). -/
def CatMap.get (m : CatMap) (c : String) : Nat :=
  if c = "talk" then m.talk
  else if c = "teamplay" then m.teamplay
  else if c = "help" then m.help
  else m.challenge

/-- Dictionary write `m[c] = v` (the program only writes the four category keys). -/
def CatMap.set (m : CatMap) (c : String) (v : Nat) : CatMap :=
  if c = "talk" then { m with talk := v }
  else if c = "teamplay" then { m with teamplay := v }
  else if c = "help" then { m with help := v }
  else { m with challenge := v }

/-- `@dataclass class Team` with its `__post_init__` defaults. -/
structure Team where
  id : String
  name : String
  score : Nat := 0
  mission_count : Nat := 0
  throw_chance : Nat := 0
  throw_granted_by_score : Nat := 0
  position : Nat := 0
  finished_at : Option String := none
  category_count : CatMap := CatMap.zero
  set_bonus_taken : Nat := 0
  line_bonus_taken : CatMap := CatMap.zero
deriving DecidableEq, Repr

/-- `@dataclass class LogEntry`. -/
structure LogEntry where
  «at» : String
  text : String
deriving DecidableEq, Repr

/-- `class Game` state: `__init__` gives the empty defaults. -/
structure Game where
  teams : List Team := []
  logs : List LogEntry := []
  finish_order : List String := []
deriving DecidableEq, Repr

/-- `Game()` — the fresh empty state. -/
def Game.init : Game := {}

/-- `add_log`: insert at the front, keep at most 150 entries. -/
def Game.add_log (g : Game) (now text : String) : Game :=
  { g with logs := (({ «at» := now, text := text } : LogEntry) :: g.logs).take 150 }

/-- `find_team`: first team whose id matches, else `None`. -/
def findTeam : List Team → String → Option Team
  | [], _ => none
  | t :: ts, tid => if t.id = tid then some t else findTeam ts tid

/-- In-place mutation of the team object returned by `find_team`: rewrite the
first list element whose id matches. -/
def updateFirst : List Team → String → (Team → Team) → List Team
  | [], _, _ => []
  | t :: ts, tid, f => if t.id = tid then f t :: ts else t :: updateFirst ts tid f

def Game.find_team (g : Game) (tid : String) : Option Team :=
  findTeam g.teams tid

/-- `add_team`: trims the name, rejects empty and duplicate names, appends a
fresh team.  The generated `_new_id` value is the `newId` parameter. -/
def Game.add_team (g : Game) (now newId rawName : String) :
    Bool × String × Game :=
  let name := rawName.trim
  if name = "" then
    (false, "팀 이름을 입력해주세요.", g)
  else if g.teams.any (fun t => t.name = name) then
    (false, "이미 같은 팀 이름이 있습니다.", g)
  else
    let g := { g with teams := g.teams ++ [({ id := newId, name := name } : Team)] }
    let g := g.add_log now ("팀 등록: " ++ name)
    (true, "팀이 추가되었습니다: " ++ name, g)

/-- The body of the `for c in CATEGORIES` loop of `compute_bonus`. -/
def lineStep (acc : Nat × Team) (c : String) : Nat × Team :=
  let bonus := acc.1
  let team := acc.2
  let ready := team.category_count.get c / LINE_THRESHOLD
  if team.line_bonus_taken.get c < ready then
    (bonus + (ready - team.line_bonus_taken.get c) * LINE_BONUS_POINTS,
     { team with line_bonus_taken := team.line_bonus_taken.set c ready })
  else (bonus, team)

/-- `compute_bonus`: one-shot 40-point set bonus plus per-category line
bonuses of 25 per newly reached multiple of 3; mutates the team's latches and
returns the combined bonus together with the mutated team. -/
def compute_bonus (team : Team) : Nat × Team :=
  let st :=
    if (CATEGORIES.all fun c => 0 < team.category_count.get c) ∧
        team.set_bonus_taken = 0 then
      (SET_BONUS_POINTS, { team with set_bonus_taken := 1 })
    else (0, team)
  CATEGORIES.foldl lineStep st

/-- `apply_score_throw_milestone`: ratchet `throw_granted_by_score` up to
`score // 40`, converting the difference into throw chances. -/
def apply_score_throw_milestone (team : Team) : Nat × Team :=
  let eligible := team.score / SCORE_PER_THROW
  if eligible ≤ team.throw_granted_by_score then (0, team)
  else
    let gained := eligible - team.throw_granted_by_score
    (gained,
     { team with
        throw_granted_by_score := eligible
        throw_chance := team.throw_chance + gained })

/-- The labels dictionaries, used only to build log text. -/
def DIFFICULTY_LABELS (d : String) : String :=
  if d = "easy" then "쉬움" else if d = "medium" then "보통" else "어려움"

def CATEGORY_LABELS (c : String) : String :=
  if c = "talk" then "대화"
  else if c = "teamplay" then "협동"
  else if c = "help" then "도움"
  else "도전"

/-- `record_activity`: validate, add base + difficulty + member-bonus points,
bump counters, apply category bonuses, convert score milestones to throws,
log and persist. -/
def Game.record_activity (g : Game) (now tid difficulty category : String)
    (participant_count : Int) (title : String) : Bool × String × Game :=
  match g.find_team tid with
  | none => (false, "유효하지 않은 팀입니다.", g)
  | some team =>
    match DIFFICULTY_POINTS difficulty with
    | none => (false, "유효하지 않은 난이도입니다.", g)
    | some dpoints =>
      if category ∉ CATEGORIES then
        (false, "유효하지 않은 카테고리입니다.", g)
      else if participant_count < 1 then
        (false, "참여 인원은 1명 이상이어야 합니다.", g)
      else
        let extraMembers : Nat :=
          (max 0 (participant_count - (TEAM_MEMBER_BONUS_START - 1 : Nat))).toNat
        let memberBonus := extraMembers * TEAM_MEMBER_BONUS_POINTS
        let earned := BASE_POINTS + dpoints + memberBonus
        let team1 :=
          { team with
              score := team.score + earned
              mission_count := team.mission_count + 1
              category_count :=
                team.category_count.set category
                  (team.category_count.get category + 1) }
        let bt := compute_bonus team1
        let bonus := bt.1
        let team2 :=
          if 0 < bonus then { bt.2 with score := bt.2.score + bonus } else bt.2
        let tt := apply_score_throw_milestone team2
        let throws := tt.1
        let team3 := tt.2
        let detail := if title.trim = "" then "" else " [" ++ title.trim ++ "]"
        let bonusText :=
          if 0 < bonus then ", 보너스 +" ++ toString bonus ++ "점" else ""
        let throwText :=
          if 0 < throws then ", 던지기 +" ++ toString throws ++ "회" else ""
        let g1 := { g with teams := updateFirst g.teams tid (fun _ => team3) }
        let g2 := g1.add_log now
          (team.name ++ detail ++ ": 활동 +" ++ toString earned ++ "점 (난이도:"
            ++ DIFFICULTY_LABELS difficulty ++ ", 카테고리:"
            ++ CATEGORY_LABELS category ++ ", 참여:"
            ++ toString participant_count ++ "명)" ++ bonusText ++ throwText)
        (true, "활동이 반영되었습니다.", g2)

/-- One entry of `YUT_OUTCOMES`. -/
structure YutOutcome where
  key : String
  label : String
  step : Int
  weight : Nat
  extra_throw : Nat
deriving DecidableEq, Repr

def YUT_OUTCOMES : List YutOutcome :=
  [⟨"do", "도", 1, 34, 0⟩,
   ⟨"gae", "개", 2, 26, 0⟩,
   ⟨"geol", "걸", 3, 17, 0⟩,
   ⟨"yut", "윷", 4, 11, 1⟩,
   ⟨"mo", "모", 5, 8, 1⟩,
   ⟨"backdo", "빽도", -1, 4, 0⟩]

/-- `ensure_finish`: on reaching `FINISH_POS`, clamp the position, stamp
`finished_at` (at most once), append to `finish_order`, award 50 points and
convert milestones. -/
def Game.ensure_finish (g : Game) (now tid : String) : Game :=
  match g.find_team tid with
  | none => g
  | some team =>
    if FINISH_POS ≤ team.position ∧ team.finished_at = none then
      let t1 :=
        { team with
            position := FINISH_POS
            finished_at := some now
            score := team.score + 50 }
      let tt := apply_score_throw_milestone t1
      let throwText :=
        if 0 < tt.1 then ", 던지기 +" ++ toString tt.1 ++ "회" else ""
      let g1 :=
        { g with
            teams := updateFirst g.teams tid (fun _ => tt.2)
            finish_order := g.finish_order ++ [team.id] }
      g1.add_log now (team.name ++ " 완주! +50점" ++ throwText)
    else g

/-- The capture predicate of `capture_opponents`: another, unfinished team
standing on the actor's cell. -/
def capturedBy (actor : Team) (t : Team) : Prop :=
  t.id ≠ actor.id ∧ t.finished_at = none ∧ t.position = actor.position

instance (actor t : Team) : Decidable (capturedBy actor t) := by
  unfold capturedBy; infer_instance

/-- `capture_opponents`: never at cell 0 or the finish cell; every captured
team reverts to its last multiple-of-10 checkpoint, the actor gains 30 points
and one extra throw per capture, then milestones convert. -/
def Game.capture_opponents (g : Game) (now tid : String) : Game :=
  match g.find_team tid with
  | none => g
  | some actor =>
    if actor.position = 0 ∨ FINISH_POS ≤ actor.position then g
    else
      let captured := g.teams.filter fun t => decide (capturedBy actor t)
      if captured = [] then g
      else
        let teams1 := g.teams.map fun t =>
          if capturedBy actor t then
            { t with position := t.position / CHECKPOINT_INTERVAL * CHECKPOINT_INTERVAL }
          else t
        let g1 := captured.foldl
          (fun (h : Game) enemy =>
            h.add_log now
              (actor.name ++ "이(가) " ++ enemy.name ++ "을(를) 잡았습니다. "
                ++ enemy.name ++ "은(는) "
                ++ toString (enemy.position / CHECKPOINT_INTERVAL * CHECKPOINT_INTERVAL)
                ++ "칸 체크포인트로 복귀합니다."))
          { g with teams := teams1 }
        let gain := 30 * captured.length
        let tt := apply_score_throw_milestone
          { actor with
              score := actor.score + gain
              throw_chance := actor.throw_chance + captured.length }
        let g2 := { g1 with teams := updateFirst g1.teams tid (fun _ => tt.2) }
        let extraMilestone :=
          if 0 < tt.1 then ", 점수 마일스톤 던지기 +" ++ toString tt.1 ++ "회" else ""
        g2.add_log now
          (actor.name ++ ": 잡기 보너스 +" ++ toString gain ++ "점, 던지기 +"
            ++ toString captured.length ++ "회" ++ extraMilestone)

/-- The team state after the movement step of `throw_yut`. -/
def movedTeam (t : Team) (yut : YutOutcome) : Team :=
  { t with
      throw_chance := t.throw_chance - 1
      position := (max 0 ((t.position : Int) + yut.step)).toNat }

/-- The team state `ensure_finish` writes when it fires. -/
def finishTeam (t : Team) (now : String) : Team :=
  (apply_score_throw_milestone
    { t with
        position := FINISH_POS
        finished_at := some now
        score := t.score + 50 }).2

/-- The mover's state after the capture rewards and milestone. -/
def captureActor (actor : Team) (cnt : Nat) : Team :=
  (apply_score_throw_milestone
    { actor with
        score := actor.score + 30 * cnt
        throw_chance := actor.throw_chance + cnt }).2

/-- The post-capture extra-throw grant of `throw_yut`. -/
def extraTeam (t : Team) (yut : YutOutcome) : Team :=
  { t with throw_chance := t.throw_chance + yut.extra_throw }

/-- The checkpoint at or before a cell. -/
def checkpointOf (p : Nat) : Nat := p / CHECKPOINT_INTERVAL * CHECKPOINT_INTERVAL

/-- `throw_yut` with the drawn outcome injected (`draw_yut` is the external
weighted random source). -/
def Game.throw_yut (g : Game) (now tid : String) (yut : YutOutcome) :
    Bool × String × Game :=
  match g.find_team tid with
  | none => (false, "유효하지 않은 팀입니다.", g)
  | some team =>
    if team.finished_at.isSome then
      (false, "이미 완주한 팀입니다.", g)
    else if team.throw_chance = 0 then
      (false, "던지기 기회가 없습니다. 활동으로 점수를 쌓아 40점 단위를 달성해주세요.", g)
    else
      let team1 := movedTeam team yut
      let g1 := { g with teams := updateFirst g.teams tid (fun _ => team1) }
      let g2 := g1.ensure_finish now tid
      let g3 :=
        match g2.find_team tid with
        | none => g2
        | some t2 => if t2.finished_at = none then g2.capture_opponents now tid else g2
      let g4 :=
        if 0 < yut.extra_throw then
          { g3 with teams := updateFirst g3.teams tid (fun a =>
              { a with throw_chance := a.throw_chance + yut.extra_throw }) }
        else g3
      let stepText :=
        if 0 < yut.step then "+" ++ toString yut.step else toString yut.step
      let extraText :=
        if 0 < yut.extra_throw then ", 추가 던지기 +" ++ toString yut.extra_throw ++ "회" else ""
      let msg := team.name ++ ": " ++ yut.label ++ " (" ++ stepText ++ "칸)" ++ extraText
      (true, msg, g4.add_log now msg)

/-- `reset`: discard everything. -/
def Game.reset (_ : Game) : Game := {}

/-- The sort key of `sorted_teams`: finish rank (`10^9` sentinel when not
finished), then score, position and mission count descending.  Python compares
`(finish_rank, -score, -position, -mission_count)` lexicographically. -/
def sortKeyB (fo : List String) (t : Team) : Nat × Int × Int × Int :=
  (if t.id ∈ fo then fo.indexOf t.id else 10 ^ 9,
   -(t.score : Int), -(t.position : Int), -(t.mission_count : Int))

/-- Python tuple `<=` on the 4-component key. -/
def keyLeB (a b : Nat × Int × Int × Int) : Bool :=
  a.1 < b.1 ∨ (a.1 = b.1 ∧ (a.2.1 < b.2.1 ∨ (a.2.1 = b.2.1 ∧
    (a.2.2.1 < b.2.2.1 ∨ (a.2.2.1 = b.2.2.1 ∧ a.2.2.2 ≤ b.2.2.2)))))

/-- `sorted_teams`: Python's stable `sorted` by `sort_key`. -/
def Game.sorted_teams (g : Game) : List Team :=
  g.teams.mergeSort fun a b => keyLeB (sortKeyB g.finish_order a) (sortKeyB g.finish_order b)

/-- The `throw_granted_by_score` value found in a stored team dict: the key can
be absent, hold an int, or hold a non-int value (`null`, string, float, ...). -/
inductive JsonTgs
  | missing
  | jint (n : Nat)
  | jother
deriving DecidableEq, Repr

/-- A stored team dict that `Team(**raw)` accepts (snapshots written by `save`
only ever hold non-negative ints in the numeric fields; a dict with missing
required keys or unknown keys raises and is covered by the unparseable
store case). -/
structure RawTeam where
  id : String
  name : String
  score : Nat := 0
  mission_count : Nat := 0
  throw_chance : Nat := 0
  throw_granted_by_score : JsonTgs := JsonTgs.missing
  position : Nat := 0
  finished_at : Option String := none
  category_count : CatMap := CatMap.zero
  set_bonus_taken : Nat := 0
  line_bonus_taken : CatMap := CatMap.zero
deriving DecidableEq, Repr

/-- The value `team.throw_granted_by_score` holds after `Team(**raw)` and the
`isinstance` fix-up in `load`: a missing key takes the dataclass default `0`,
which is an int and therefore passes `isinstance(..., int)` unchanged; a
present int is kept; only a present non-int value is re-derived as
`score // SCORE_PER_THROW`. -/
def healTgs (tgs : JsonTgs) (score : Nat) : Nat :=
  match tgs with
  | JsonTgs.missing => 0
  | JsonTgs.jint n => n
  | JsonTgs.jother => score / SCORE_PER_THROW

/-- `Team(**raw)` followed by the `isinstance` fix-up of `load`. -/
def loadTeam (r : RawTeam) : Team :=
  { id := r.id
    name := r.name
    score := r.score
    mission_count := r.mission_count
    throw_chance := r.throw_chance
    throw_granted_by_score := healTgs r.throw_granted_by_score r.score
    position := r.position
    finished_at := r.finished_at
    category_count := r.category_count
    set_bonus_taken := r.set_bonus_taken
    line_bonus_taken := r.line_bonus_taken }

/-- A parsed `state.json` payload. -/
structure Payload where
  teams : List RawTeam := []
  logs : List LogEntry := []
  finish_order : List String := []
deriving DecidableEq, Repr

/-- The abstract persistent store `load` reads: the file can be absent, exist
but fail to decode (json errors and dataclass `TypeError`s are both caught by
the `except` clause), or decode into a payload. -/
inductive Store
  | absent
  | unparseable
  | parsed (p : Payload)
deriving DecidableEq, Repr

/-- `Game.load`: fresh state when the store is absent or broken, otherwise the
decoded teams (with the `throw_granted_by_score` fix-up), logs and
finish order. -/
def Game.load : Store → Game
  | Store.absent => {}
  | Store.unparseable => {}
  | Store.parsed p =>
    { teams := p.teams.map loadTeam
      logs := p.logs
      finish_order := p.finish_order }

end BoardB

namespace BoardA

/-- Variant A's constants (`board_A_python/game.py`) coincide with variant B's
scoring constants, so the `BoardB` values are referenced directly; only the
log cap differs (120 instead of 150). -/
def LOG_CAP : Nat := 120

/-- `@dataclass class Team` of variant A: the scoring fields only. -/
structure Team where
  id : String
  name : String
  score : Nat := 0
  mission_count : Nat := 0
  category_count : BoardB.CatMap := BoardB.CatMap.zero
  set_bonus_taken : Nat := 0
  line_bonus_taken : BoardB.CatMap := BoardB.CatMap.zero
deriving DecidableEq, Repr

/-- Variant A's `Game` state. -/
structure Game where
  teams : List Team := []
  logs : List BoardB.LogEntry := []
deriving DecidableEq, Repr

/-- `add_log`: insert at the front, keep at most 120 entries. -/
def Game.add_log (g : Game) (now text : String) : Game :=
  { g with logs := (({ «at» := now, text := text } : BoardB.LogEntry) :: g.logs).take LOG_CAP }

def findTeam : List Team → String → Option Team
  | [], _ => none
  | t :: ts, tid => if t.id = tid then some t else findTeam ts tid

def updateFirst : List Team → String → (Team → Team) → List Team
  | [], _, _ => []
  | t :: ts, tid, f => if t.id = tid then f t :: ts else t :: updateFirst ts tid f

def Game.find_team (g : Game) (tid : String) : Option Team :=
  findTeam g.teams tid

/-- Variant A's `add_team`. -/
def Game.add_team (g : Game) (now newId rawName : String) :
    Bool × String × Game :=
  let name := rawName.trim
  if name = "" then
    (false, "팀 이름을 입력해주세요.", g)
  else if g.teams.any (fun t => t.name = name) then
    (false, "이미 같은 팀 이름이 있습니다.", g)
  else
    let g := { g with teams := g.teams ++ [({ id := newId, name := name } : Team)] }
    let g := g.add_log now ("팀 등록: " ++ name)
    (true, "팀이 추가되었습니다: " ++ name, g)

/-- The body of variant A's bonus loop. -/
def lineStep (acc : Nat × Team) (cat : String) : Nat × Team :=
  let bonus := acc.1
  let team := acc.2
  let ready := team.category_count.get cat / BoardB.LINE_THRESHOLD
  if team.line_bonus_taken.get cat < ready then
    (bonus + (ready - team.line_bonus_taken.get cat) * BoardB.LINE_BONUS_POINTS,
     { team with line_bonus_taken := team.line_bonus_taken.set cat ready })
  else (bonus, team)

/-- Variant A's `compute_bonus` — same logic as variant B's. -/
def compute_bonus (team : Team) : Nat × Team :=
  let st :=
    if (BoardB.CATEGORIES.all fun c => 0 < team.category_count.get c) ∧
        team.set_bonus_taken = 0 then
      (BoardB.SET_BONUS_POINTS, { team with set_bonus_taken := 1 })
    else (0, team)
  BoardB.CATEGORIES.foldl lineStep st

/-- Variant A's `record_activity`: identical validation and scoring, no race
or milestone step. -/
def Game.record_activity (g : Game) (now tid difficulty category : String)
    (participant_count : Int) (title : String) : Bool × String × Game :=
  match g.find_team tid with
  | none => (false, "유효하지 않은 팀입니다.", g)
  | some team =>
    match BoardB.DIFFICULTY_POINTS difficulty with
    | none => (false, "유효하지 않은 난이도입니다.", g)
    | some dpoints =>
      if category ∉ BoardB.CATEGORIES then
        (false, "유효하지 않은 카테고리입니다.", g)
      else if participant_count < 1 then
        (false, "참여 인원은 1명 이상이어야 합니다.", g)
      else
        let extraMembers : Nat :=
          (max 0 (participant_count - (BoardB.TEAM_MEMBER_BONUS_START - 1 : Nat))).toNat
        let memberBonus := extraMembers * BoardB.TEAM_MEMBER_BONUS_POINTS
        let earned := BoardB.BASE_POINTS + dpoints + memberBonus
        let team1 :=
          { team with
              score := team.score + earned
              mission_count := team.mission_count + 1
              category_count :=
                team.category_count.set category
                  (team.category_count.get category + 1) }
        let bt := compute_bonus team1
        let bonus := bt.1
        let team2 :=
          if 0 < bonus then { bt.2 with score := bt.2.score + bonus } else bt.2
        let detail := if title.trim = "" then "" else " [" ++ title.trim ++ "]"
        let msg0 :=
          team.name ++ detail ++ ": 활동 +" ++ toString earned ++ "점 (난이도:"
            ++ BoardB.DIFFICULTY_LABELS difficulty ++ ", 카테고리:"
            ++ BoardB.CATEGORY_LABELS category ++ ", 참여:"
            ++ toString participant_count ++ "명)"
        let msg := if 0 < bonus then msg0 ++ " + 보너스 " ++ toString bonus ++ "점" else msg0
        let g1 := { g with teams := updateFirst g.teams tid (fun _ => team2) }
        let g2 := g1.add_log now msg
        (true, "활동이 반영되었습니다.", g2)

/-- `reset`. -/
def Game.reset (_ : Game) : Game := {}

/-- Variant A's sort key `(-score, -mission_count, name)`. -/
def sortKeyA (t : Team) : Int × Int × String :=
  (-(t.score : Int), -(t.mission_count : Int), t.name)

/-- Python tuple `<=` on the 3-component key (names compare lexicographically). -/
def keyLeA (a b : Int × Int × String) : Bool :=
  a.1 < b.1 ∨ (a.1 = b.1 ∧ (a.2.1 < b.2.1 ∨ (a.2.1 = b.2.1 ∧
    (a.2.2 < b.2.2 ∨ a.2.2 = b.2.2))))

/-- Variant A's `sorted_teams`. -/
def Game.sorted_teams (g : Game) : List Team :=
  g.teams.mergeSort fun a b => keyLeA (sortKeyA a) (sortKeyA b)

end BoardA

namespace BoardB

/-! Helper lemmas about team lookup and first-match update. -/

theorem findTeam_mem {ts : List Team} {tid : String} {t : Team}
    (h : findTeam ts tid = some t) : t ∈ ts := by
  induction ts with
  | nil => simp [findTeam] at h
  | cons u us ih =>
    by_cases hu : u.id = tid
    · simp [findTeam, hu] at h; simp [h.symm]
    · simp [findTeam, hu] at h
      exact List.mem_cons_of_mem _ (ih h)

theorem findTeam_id {ts : List Team} {tid : String} {t : Team}
    (h : findTeam ts tid = some t) : t.id = tid := by
  induction ts with
  | nil => simp [findTeam] at h
  | cons u us ih =>
    by_cases hu : u.id = tid
    · simp [findTeam, hu] at h; rw [← h]; exact hu
    · simp [findTeam, hu] at h; exact ih h

theorem findTeam_of_mem {ts : List Team} {t : Team}
    (hmem : t ∈ ts) (hid : t.id = tid) : ∃ u, findTeam ts tid = some u := by
  induction ts with
  | nil => simp at hmem
  | cons u us ih =>
    by_cases hu : u.id = tid
    · exact ⟨u, by simp [findTeam, hu]⟩
    · rcases List.mem_cons.mp hmem with h | h
      · exact absurd (h ▸ hid) hu
      · obtain ⟨w, hw⟩ := ih h
        exact ⟨w, by simp [findTeam, hu, hw]⟩

theorem updateFirst_map_id {ts : List Team} {tid : String} {f : Team → Team}
    (hf : ∀ t, (f t).id = t.id) :
    (updateFirst ts tid f).map Team.id = ts.map Team.id := by
  induction ts with
  | nil => rfl
  | cons u us ih =>
    by_cases hu : u.id = tid
    · simp [updateFirst, hu, hf]
    · simp [updateFirst, hu, ih]

theorem updateFirst_length {ts : List Team} {tid : String} {f : Team → Team} :
    (updateFirst ts tid f).length = ts.length := by
  induction ts with
  | nil => rfl
  | cons u us ih =>
    by_cases hu : u.id = tid
    · simp [updateFirst, hu]
    · simp [updateFirst, hu, ih]

theorem findTeam_updateFirst_self {ts : List Team} {tid : String} {f : Team → Team}
    (hf : ∀ t, (f t).id = t.id) :
    findTeam (updateFirst ts tid f) tid = (findTeam ts tid).map f := by
  induction ts with
  | nil => rfl
  | cons u us ih =>
    by_cases hu : u.id = tid
    · simp [updateFirst, findTeam, hu, hf]
    · simp [updateFirst, findTeam, hu, ih]

theorem findTeam_updateFirst_ne {ts : List Team} {tid tid2 : String} {f : Team → Team}
    (hf : ∀ t, (f t).id = t.id) (hne : tid2 ≠ tid) :
    findTeam (updateFirst ts tid f) tid2 = findTeam ts tid2 := by
  induction ts with
  | nil => rfl
  | cons u us ih =>
    by_cases hu : u.id = tid
    · have h2 : ¬ (f u).id = tid2 := by
        rw [hf u, hu]; exact fun h => hne h.symm
      have h3 : ¬ u.id = tid2 := by
        rw [hu]; exact fun h => hne h.symm
      have h4 : ¬ tid = tid2 := fun h => hne h.symm
      simp [updateFirst, findTeam, hu, h2, h3, h4]
    · simp only [updateFirst, if_neg hu, findTeam]
      by_cases hu2 : u.id = tid2
      · simp [hu2]
      · simp [hu2, ih]

theorem mem_updateFirst {ts : List Team} {tid : String} {f : Team → Team} {u : Team}
    (h : u ∈ updateFirst ts tid f) :
    u ∈ ts ∨ ∃ t, t ∈ ts ∧ t.id = tid ∧ u = f t := by
  induction ts with
  | nil => simp [updateFirst] at h
  | cons v vs ih =>
    by_cases hv : v.id = tid
    · simp only [updateFirst, if_pos hv] at h
      rcases List.mem_cons.mp h with h | h
      · exact Or.inr ⟨v, List.mem_cons_self .., hv, h⟩
      · exact Or.inl (List.mem_cons_of_mem _ h)
    · simp only [updateFirst, if_neg hv] at h
      rcases List.mem_cons.mp h with h | h
      · exact Or.inl (h ▸ List.mem_cons_self ..)
      · rcases ih h with h | ⟨t, ht, htid, hu⟩
        · exact Or.inl (List.mem_cons_of_mem _ h)
        · exact Or.inr ⟨t, List.mem_cons_of_mem _ ht, htid, hu⟩

theorem updateFirst_updateFirst {ts : List Team} {tid : String} {f h : Team → Team}
    (hf : ∀ t, (f t).id = t.id) :
    updateFirst (updateFirst ts tid f) tid h = updateFirst ts tid (fun t => h (f t)) := by
  induction ts with
  | nil => rfl
  | cons u us ih =>
    by_cases hu : u.id = tid
    · simp [updateFirst, hu, hf]
    · simp [updateFirst, hu, ih]

/-! Field preservation of the scoring helpers. -/

theorem milestone_id (t : Team) :
    (apply_score_throw_milestone t).2.id = t.id := by
  simp only [apply_score_throw_milestone]
  split_ifs <;> rfl

theorem milestone_name (t : Team) :
    (apply_score_throw_milestone t).2.name = t.name := by
  simp only [apply_score_throw_milestone]
  split_ifs <;> rfl

theorem milestone_score (t : Team) :
    (apply_score_throw_milestone t).2.score = t.score := by
  simp only [apply_score_throw_milestone]
  split_ifs <;> rfl

theorem milestone_mission_count (t : Team) :
    (apply_score_throw_milestone t).2.mission_count = t.mission_count := by
  simp only [apply_score_throw_milestone]
  split_ifs <;> rfl

theorem milestone_position (t : Team) :
    (apply_score_throw_milestone t).2.position = t.position := by
  simp only [apply_score_throw_milestone]
  split_ifs <;> rfl

theorem milestone_finished_at (t : Team) :
    (apply_score_throw_milestone t).2.finished_at = t.finished_at := by
  simp only [apply_score_throw_milestone]
  split_ifs <;> rfl

theorem milestone_category_count (t : Team) :
    (apply_score_throw_milestone t).2.category_count = t.category_count := by
  simp only [apply_score_throw_milestone]
  split_ifs <;> rfl

theorem milestone_set_bonus_taken (t : Team) :
    (apply_score_throw_milestone t).2.set_bonus_taken = t.set_bonus_taken := by
  simp only [apply_score_throw_milestone]
  split_ifs <;> rfl

theorem milestone_line_bonus_taken (t : Team) :
    (apply_score_throw_milestone t).2.line_bonus_taken = t.line_bonus_taken := by
  simp only [apply_score_throw_milestone]
  split_ifs <;> rfl

theorem apply_score_throw_milestone_granted (t : Team)
    (h : t.throw_granted_by_score ≤ t.score / SCORE_PER_THROW) :
    (apply_score_throw_milestone t).2.throw_granted_by_score = t.score / SCORE_PER_THROW ∧
    (apply_score_throw_milestone t).1 =
      t.score / SCORE_PER_THROW - t.throw_granted_by_score ∧
    (apply_score_throw_milestone t).2.throw_chance =
      t.throw_chance + (t.score / SCORE_PER_THROW - t.throw_granted_by_score) := by
  unfold apply_score_throw_milestone
  by_cases hle : t.score / SCORE_PER_THROW ≤ t.throw_granted_by_score
  · have : t.throw_granted_by_score = t.score / SCORE_PER_THROW := le_antisymm h hle
    simp [hle, this]
  · simp [hle]

theorem apply_score_throw_milestone_mono (t : Team) :
    t.throw_chance ≤ (apply_score_throw_milestone t).2.throw_chance ∧
    t.throw_granted_by_score ≤ (apply_score_throw_milestone t).2.throw_granted_by_score := by
  unfold apply_score_throw_milestone
  by_cases h : t.score / SCORE_PER_THROW ≤ t.throw_granted_by_score <;> simp [h] <;> omega

end BoardB

namespace BoardB

/-- The set-bonus condition: every category visited and the latch still open. -/
def setCond (t : Team) : Prop :=
  (∀ c ∈ CATEGORIES, 0 < t.category_count.get c) ∧ t.set_bonus_taken = 0

instance (t : Team) : Decidable (setCond t) := by
  unfold setCond; infer_instance

/-- The line bonus one category contributes in a single `compute_bonus` call. -/
def lineGain (t : Team) (c : String) : Nat :=
  if t.line_bonus_taken.get c < t.category_count.get c / LINE_THRESHOLD then
    (t.category_count.get c / LINE_THRESHOLD - t.line_bonus_taken.get c) * LINE_BONUS_POINTS
  else 0

/-! `CatMap` dictionary lemmas (the program only touches the 4 category keys). -/

theorem CatMap.get_set_self (m : CatMap) (c : String) (v : Nat) :
    (m.set c v).get c = v := by
  unfold CatMap.get CatMap.set
  split_ifs <;> rfl

theorem CatMap.get_set_ne (m : CatMap) {c c' : String} (v : Nat)
    (hc : c ∈ CATEGORIES) (hc' : c' ∈ CATEGORIES) (hne : c ≠ c') :
    (m.set c v).get c' = m.get c' := by
  simp only [CATEGORIES, List.mem_cons, List.not_mem_nil, or_false] at hc hc'
  rcases hc with rfl | rfl | rfl | rfl <;> rcases hc' with rfl | rfl | rfl | rfl <;>
    first
      | exact absurd rfl hne
      | simp [CatMap.get, CatMap.set]

/-! Single-step lemmas about the bonus loop body. -/

theorem lineStep_fst (p : Nat × Team) (c : String) :
    (lineStep p c).1 = p.1 + lineGain p.2 c := by
  obtain ⟨b, u⟩ := p
  simp only [lineStep, lineGain]
  split_ifs <;> simp

theorem lineStep_id (p : Nat × Team) (c : String) :
    (lineStep p c).2.id = p.2.id := by
  obtain ⟨b, u⟩ := p
  simp only [lineStep]
  split_ifs <;> rfl

theorem lineStep_name (p : Nat × Team) (c : String) :
    (lineStep p c).2.name = p.2.name := by
  obtain ⟨b, u⟩ := p
  simp only [lineStep]
  split_ifs <;> rfl

theorem lineStep_score (p : Nat × Team) (c : String) :
    (lineStep p c).2.score = p.2.score := by
  obtain ⟨b, u⟩ := p
  simp only [lineStep]
  split_ifs <;> rfl

theorem lineStep_mission_count (p : Nat × Team) (c : String) :
    (lineStep p c).2.mission_count = p.2.mission_count := by
  obtain ⟨b, u⟩ := p
  simp only [lineStep]
  split_ifs <;> rfl

theorem lineStep_throw_chance (p : Nat × Team) (c : String) :
    (lineStep p c).2.throw_chance = p.2.throw_chance := by
  obtain ⟨b, u⟩ := p
  simp only [lineStep]
  split_ifs <;> rfl

theorem lineStep_granted (p : Nat × Team) (c : String) :
    (lineStep p c).2.throw_granted_by_score = p.2.throw_granted_by_score := by
  obtain ⟨b, u⟩ := p
  simp only [lineStep]
  split_ifs <;> rfl

theorem lineStep_position (p : Nat × Team) (c : String) :
    (lineStep p c).2.position = p.2.position := by
  obtain ⟨b, u⟩ := p
  simp only [lineStep]
  split_ifs <;> rfl

theorem lineStep_finished_at (p : Nat × Team) (c : String) :
    (lineStep p c).2.finished_at = p.2.finished_at := by
  obtain ⟨b, u⟩ := p
  simp only [lineStep]
  split_ifs <;> rfl

theorem lineStep_category_count (p : Nat × Team) (c : String) :
    (lineStep p c).2.category_count = p.2.category_count := by
  obtain ⟨b, u⟩ := p
  simp only [lineStep]
  split_ifs <;> rfl

theorem lineStep_set_bonus_taken (p : Nat × Team) (c : String) :
    (lineStep p c).2.set_bonus_taken = p.2.set_bonus_taken := by
  obtain ⟨b, u⟩ := p
  simp only [lineStep]
  split_ifs <;> rfl

theorem lineStep_taken_self (p : Nat × Team) (c : String) :
    (lineStep p c).2.line_bonus_taken.get c =
      max (p.2.category_count.get c / LINE_THRESHOLD) (p.2.line_bonus_taken.get c) := by
  obtain ⟨b, u⟩ := p
  simp only [lineStep]
  split_ifs with h
  · simp only [CatMap.get_set_self]
    omega
  · simp only
    omega

theorem lineStep_taken_ne (p : Nat × Team) {c c' : String}
    (hc : c ∈ CATEGORIES) (hc' : c' ∈ CATEGORIES) (hne : c ≠ c') :
    (lineStep p c).2.line_bonus_taken.get c' = p.2.line_bonus_taken.get c' := by
  obtain ⟨b, u⟩ := p
  simp only [lineStep]
  split_ifs with h
  · simp only [CatMap.get_set_ne u.line_bonus_taken _ hc hc' hne]
  · rfl

theorem lineGain_congr {u v : Team} (c : String)
    (h1 : u.category_count.get c = v.category_count.get c)
    (h2 : u.line_bonus_taken.get c = v.line_bonus_taken.get c) :
    lineGain u c = lineGain v c := by
  unfold lineGain
  rw [h1, h2]

theorem compute_bonus_eq (t : Team) :
    compute_bonus t =
      lineStep (lineStep (lineStep (lineStep
        (if (CATEGORIES.all fun c => 0 < t.category_count.get c) ∧
            t.set_bonus_taken = 0 then
          (SET_BONUS_POINTS, { t with set_bonus_taken := 1 })
        else (0, t)) "talk") "teamplay") "help") "challenge" := by
  unfold compute_bonus
  simp only [CATEGORIES, List.foldl]

end BoardB

namespace BoardB

theorem cb_id (t : Team) : (compute_bonus t).2.id = t.id := by
  rw [compute_bonus_eq]
  simp only [lineStep_id]
  split_ifs <;> rfl

theorem cb_name (t : Team) : (compute_bonus t).2.name = t.name := by
  rw [compute_bonus_eq]
  simp only [lineStep_name]
  split_ifs <;> rfl

theorem cb_score (t : Team) : (compute_bonus t).2.score = t.score := by
  rw [compute_bonus_eq]
  simp only [lineStep_score]
  split_ifs <;> rfl

theorem cb_mission_count (t : Team) : (compute_bonus t).2.mission_count = t.mission_count := by
  rw [compute_bonus_eq]
  simp only [lineStep_mission_count]
  split_ifs <;> rfl

theorem cb_throw_chance (t : Team) : (compute_bonus t).2.throw_chance = t.throw_chance := by
  rw [compute_bonus_eq]
  simp only [lineStep_throw_chance]
  split_ifs <;> rfl

theorem cb_granted (t : Team) :
    (compute_bonus t).2.throw_granted_by_score = t.throw_granted_by_score := by
  rw [compute_bonus_eq]
  simp only [lineStep_granted]
  split_ifs <;> rfl

theorem cb_position (t : Team) : (compute_bonus t).2.position = t.position := by
  rw [compute_bonus_eq]
  simp only [lineStep_position]
  split_ifs <;> rfl

theorem cb_finished_at (t : Team) : (compute_bonus t).2.finished_at = t.finished_at := by
  rw [compute_bonus_eq]
  simp only [lineStep_finished_at]
  split_ifs <;> rfl

theorem cb_category_count (t : Team) :
    (compute_bonus t).2.category_count = t.category_count := by
  rw [compute_bonus_eq]
  simp only [lineStep_category_count]
  split_ifs <;> rfl

theorem compute_bonus_spec (t : Team) :
    (compute_bonus t).1 =
      (if setCond t then SET_BONUS_POINTS else 0) +
        (lineGain t "talk" + lineGain t "teamplay" + lineGain t "help" +
          lineGain t "challenge") ∧
    (compute_bonus t).2.set_bonus_taken =
      (if setCond t then 1 else t.set_bonus_taken) ∧
    (∀ c ∈ CATEGORIES,
      (compute_bonus t).2.line_bonus_taken.get c =
        max (t.category_count.get c / LINE_THRESHOLD) (t.line_bonus_taken.get c)) := by
  have hcond : ((CATEGORIES.all fun c => 0 < t.category_count.get c) ∧
      t.set_bonus_taken = 0) ↔ setCond t := by
    unfold setCond
    simp [List.all_eq_true]
  have mt : "talk" ∈ CATEGORIES := by decide
  have mp : "teamplay" ∈ CATEGORIES := by decide
  have mh : "help" ∈ CATEGORIES := by decide
  have mc : "challenge" ∈ CATEGORIES := by decide
  rw [compute_bonus_eq]
  set s0 := (if (CATEGORIES.all fun c => 0 < t.category_count.get c) ∧
      t.set_bonus_taken = 0 then
    (SET_BONUS_POINTS, { t with set_bonus_taken := 1 })
  else ((0 : Nat), t)) with hs0
  have h0b : s0.1 = (if setCond t then SET_BONUS_POINTS else 0) := by
    rw [hs0]
    by_cases h : setCond t
    · rw [if_pos (hcond.mpr h), if_pos h]
    · rw [if_neg (fun hx => h (hcond.mp hx)), if_neg h]
  have h0sb : s0.2.set_bonus_taken = (if setCond t then 1 else t.set_bonus_taken) := by
    rw [hs0]
    by_cases h : setCond t
    · rw [if_pos (hcond.mpr h), if_pos h]
    · rw [if_neg (fun hx => h (hcond.mp hx)), if_neg h]
  have h0cc : s0.2.category_count = t.category_count := by
    rw [hs0]; split_ifs <;> rfl
  have h0lb : s0.2.line_bonus_taken = t.line_bonus_taken := by
    rw [hs0]; split_ifs <;> rfl
  set s1 := lineStep s0 "talk" with hs1
  set s2 := lineStep s1 "teamplay" with hs2
  set s3 := lineStep s2 "help" with hs3
  have h1cc : s1.2.category_count = t.category_count := by
    rw [hs1, lineStep_category_count, h0cc]
  have h2cc : s2.2.category_count = t.category_count := by
    rw [hs2, lineStep_category_count, h1cc]
  have h3cc : s3.2.category_count = t.category_count := by
    rw [hs3, lineStep_category_count, h2cc]
  have h1sb : s1.2.set_bonus_taken = s0.2.set_bonus_taken := lineStep_set_bonus_taken ..
  have h2sb : s2.2.set_bonus_taken = s0.2.set_bonus_taken := by
    rw [hs2, lineStep_set_bonus_taken, h1sb]
  have h3sb : s3.2.set_bonus_taken = s0.2.set_bonus_taken := by
    rw [hs3, lineStep_set_bonus_taken, h2sb]
  -- line_bonus_taken reads of categories not yet visited
  have h1p : s1.2.line_bonus_taken.get "teamplay" = t.line_bonus_taken.get "teamplay" := by
    rw [hs1, lineStep_taken_ne _ mt mp (by decide), h0lb]
  have h1h : s1.2.line_bonus_taken.get "help" = t.line_bonus_taken.get "help" := by
    rw [hs1, lineStep_taken_ne _ mt mh (by decide), h0lb]
  have h1c : s1.2.line_bonus_taken.get "challenge" = t.line_bonus_taken.get "challenge" := by
    rw [hs1, lineStep_taken_ne _ mt mc (by decide), h0lb]
  have h2h : s2.2.line_bonus_taken.get "help" = t.line_bonus_taken.get "help" := by
    rw [hs2, lineStep_taken_ne _ mp mh (by decide), h1h]
  have h2c : s2.2.line_bonus_taken.get "challenge" = t.line_bonus_taken.get "challenge" := by
    rw [hs2, lineStep_taken_ne _ mp mc (by decide), h1c]
  have h3c : s3.2.line_bonus_taken.get "challenge" = t.line_bonus_taken.get "challenge" := by
    rw [hs3, lineStep_taken_ne _ mh mc (by decide), h2c]
  -- accumulated bonus
  have g1 : s1.1 = s0.1 + lineGain t "talk" := by
    rw [hs1, lineStep_fst]
    congr 1
    exact lineGain_congr _ (by rw [h0cc]) (by rw [h0lb])
  have g2 : s2.1 = s1.1 + lineGain t "teamplay" := by
    rw [hs2, lineStep_fst]
    congr 1
    exact lineGain_congr _ (by rw [h1cc]) (by rw [h1p])
  have g3 : s3.1 = s2.1 + lineGain t "help" := by
    rw [hs3, lineStep_fst]
    congr 1
    exact lineGain_congr _ (by rw [h2cc]) (by rw [h2h])
  have g4 : (lineStep s3 "challenge").1 = s3.1 + lineGain t "challenge" := by
    rw [lineStep_fst]
    congr 1
    exact lineGain_congr _ (by rw [h3cc]) (by rw [h3c])
  refine ⟨?_, ?_, ?_⟩
  · rw [g4, g3, g2, g1, h0b]
    ring
  · rw [lineStep_set_bonus_taken, h3sb, h0sb]
  · -- the final latch values, category by category
    have ftalk : (lineStep s3 "challenge").2.line_bonus_taken.get "talk" =
        max (t.category_count.get "talk" / LINE_THRESHOLD) (t.line_bonus_taken.get "talk") := by
      rw [lineStep_taken_ne _ mc mt (by decide), hs3, lineStep_taken_ne _ mh mt (by decide),
        hs2, lineStep_taken_ne _ mp mt (by decide), hs1, lineStep_taken_self, h0cc, h0lb]
    have fteamplay : (lineStep s3 "challenge").2.line_bonus_taken.get "teamplay" =
        max (t.category_count.get "teamplay" / LINE_THRESHOLD)
          (t.line_bonus_taken.get "teamplay") := by
      rw [lineStep_taken_ne _ mc mp (by decide), hs3, lineStep_taken_ne _ mh mp (by decide),
        hs2, lineStep_taken_self, h1cc, h1p]
    have fhelp : (lineStep s3 "challenge").2.line_bonus_taken.get "help" =
        max (t.category_count.get "help" / LINE_THRESHOLD) (t.line_bonus_taken.get "help") := by
      rw [lineStep_taken_ne _ mc mh (by decide), hs3, lineStep_taken_self, h2cc, h2h]
    have fchallenge : (lineStep s3 "challenge").2.line_bonus_taken.get "challenge" =
        max (t.category_count.get "challenge" / LINE_THRESHOLD)
          (t.line_bonus_taken.get "challenge") := by
      rw [lineStep_taken_self, h3cc, h3c]
    intro c hcm
    simp only [CATEGORIES, List.mem_cons, List.not_mem_nil, or_false] at hcm
    rcases hcm with rfl | rfl | rfl | rfl
    · exact ftalk
    · exact fteamplay
    · exact fhelp
    · exact fchallenge

end BoardB

namespace BoardB

/-- Points earned by one activity before category bonuses. -/
def activityEarned (dp : Nat) (pc : Int) : Nat :=
  BASE_POINTS + dp +
    (max 0 (pc - (TEAM_MEMBER_BONUS_START - 1 : Nat))).toNat * TEAM_MEMBER_BONUS_POINTS

/-- The team state a successful `record_activity` call writes back: counters
bumped, bonuses applied on the bumped counters, milestone converted. -/
def activityTeam (t0 : Team) (dp : Nat) (category : String) (pc : Int) : Team :=
  let team1 :=
    { t0 with
        score := t0.score + activityEarned dp pc
        mission_count := t0.mission_count + 1
        category_count :=
          t0.category_count.set category (t0.category_count.get category + 1) }
  let bt := compute_bonus team1
  let team2 := if 0 < bt.1 then { bt.2 with score := bt.2.score + bt.1 } else bt.2
  (apply_score_throw_milestone team2).2

theorem record_activity_success (g : Game) (now tid difficulty category : String)
    (pc : Int) (title : String) (t0 : Team) (dp : Nat)
    (ht : g.find_team tid = some t0)
    (hd : DIFFICULTY_POINTS difficulty = some dp)
    (hc : category ∈ CATEGORIES)
    (hpc : 1 ≤ pc) :
    (g.record_activity now tid difficulty category pc title).1 = true ∧
    (g.record_activity now tid difficulty category pc title).2.1 = "활동이 반영되었습니다." ∧
    (g.record_activity now tid difficulty category pc title).2.2.teams =
      updateFirst g.teams tid (fun _ => activityTeam t0 dp category pc) ∧
    (g.record_activity now tid difficulty category pc title).2.2.finish_order =
      g.finish_order ∧
    ∃ e, (g.record_activity now tid difficulty category pc title).2.2.logs =
      (e :: g.logs).take 150 := by
  have hnc : ¬ category ∉ CATEGORIES := fun h => h hc
  have hnpc : ¬ pc < 1 := by omega
  unfold Game.record_activity
  rw [ht, hd]
  simp only [hnc, if_false, hnpc, if_true, Game.add_log,
    activityTeam, activityEarned]
  exact ⟨trivial, trivial, trivial, trivial, _, rfl⟩

end BoardB

namespace BoardB

/-- The counter-bumped team `record_activity` hands to `compute_bonus`. -/
def bumpedTeam (t0 : Team) (dp : Nat) (category : String) (pc : Int) : Team :=
  { t0 with
      score := t0.score + activityEarned dp pc
      mission_count := t0.mission_count + 1
      category_count :=
        t0.category_count.set category (t0.category_count.get category + 1) }

theorem activityTeam_eq (t0 : Team) (dp : Nat) (category : String) (pc : Int) :
    activityTeam t0 dp category pc =
      (apply_score_throw_milestone
        (if 0 < (compute_bonus (bumpedTeam t0 dp category pc)).1 then
          { (compute_bonus (bumpedTeam t0 dp category pc)).2 with
              score := (compute_bonus (bumpedTeam t0 dp category pc)).2.score +
                (compute_bonus (bumpedTeam t0 dp category pc)).1 }
        else (compute_bonus (bumpedTeam t0 dp category pc)).2)).2 := by
  simp only [activityTeam, bumpedTeam]

theorem activityTeam_id (t0 : Team) (dp : Nat) (category : String) (pc : Int) :
    (activityTeam t0 dp category pc).id = t0.id := by
  rw [activityTeam_eq, milestone_id]
  split_ifs <;> simp [cb_id, bumpedTeam]

theorem activityTeam_mission_count (t0 : Team) (dp : Nat) (category : String) (pc : Int) :
    (activityTeam t0 dp category pc).mission_count = t0.mission_count + 1 := by
  rw [activityTeam_eq, milestone_mission_count]
  split_ifs <;> simp [cb_mission_count, bumpedTeam]

theorem activityTeam_category_count (t0 : Team) (dp : Nat) (category : String) (pc : Int) :
    (activityTeam t0 dp category pc).category_count =
      t0.category_count.set category (t0.category_count.get category + 1) := by
  rw [activityTeam_eq, milestone_category_count]
  split_ifs <;> simp [cb_category_count, bumpedTeam]

theorem activityTeam_position (t0 : Team) (dp : Nat) (category : String) (pc : Int) :
    (activityTeam t0 dp category pc).position = t0.position := by
  rw [activityTeam_eq, milestone_position]
  split_ifs <;> simp [cb_position, bumpedTeam]

theorem activityTeam_finished_at (t0 : Team) (dp : Nat) (category : String) (pc : Int) :
    (activityTeam t0 dp category pc).finished_at = t0.finished_at := by
  rw [activityTeam_eq, milestone_finished_at]
  split_ifs <;> simp [cb_finished_at, bumpedTeam]

theorem activityTeam_score (t0 : Team) (dp : Nat) (category : String) (pc : Int) :
    (activityTeam t0 dp category pc).score =
      t0.score + activityEarned dp pc +
        (compute_bonus (bumpedTeam t0 dp category pc)).1 := by
  rw [activityTeam_eq, milestone_score]
  split_ifs with h
  · simp [cb_score, bumpedTeam]
  · have hz : (compute_bonus (bumpedTeam t0 dp category pc)).1 = 0 := by omega
    rw [cb_score, hz]
    simp [bumpedTeam]

theorem activityTeam_granted (t0 : Team) (dp : Nat) (category : String) (pc : Int)
    (h : t0.throw_granted_by_score ≤
      (t0.score + activityEarned dp pc +
        (compute_bonus (bumpedTeam t0 dp category pc)).1) / SCORE_PER_THROW) :
    (activityTeam t0 dp category pc).throw_granted_by_score =
      (activityTeam t0 dp category pc).score / SCORE_PER_THROW ∧
    (activityTeam t0 dp category pc).throw_chance =
      t0.throw_chance +
        ((activityTeam t0 dp category pc).score / SCORE_PER_THROW -
          t0.throw_granted_by_score) := by
  rw [activityTeam_score, activityTeam_eq]
  set t2 := (if 0 < (compute_bonus (bumpedTeam t0 dp category pc)).1 then
    { (compute_bonus (bumpedTeam t0 dp category pc)).2 with
        score := (compute_bonus (bumpedTeam t0 dp category pc)).2.score +
          (compute_bonus (bumpedTeam t0 dp category pc)).1 }
  else (compute_bonus (bumpedTeam t0 dp category pc)).2) with ht2
  have hsc : t2.score = t0.score + activityEarned dp pc +
      (compute_bonus (bumpedTeam t0 dp category pc)).1 := by
    rw [ht2]
    split_ifs with hb
    · simp [cb_score, bumpedTeam]
    · have hz : (compute_bonus (bumpedTeam t0 dp category pc)).1 = 0 := by omega
      rw [cb_score, hz]
      simp [bumpedTeam]
  have hgr : t2.throw_granted_by_score = t0.throw_granted_by_score := by
    rw [ht2]
    split_ifs <;> simp [cb_granted, bumpedTeam]
  have hch : t2.throw_chance = t0.throw_chance := by
    rw [ht2]
    split_ifs <;> simp [cb_throw_chance, bumpedTeam]
  have hle : t2.throw_granted_by_score ≤ t2.score / SCORE_PER_THROW := by
    rw [hgr, hsc]; exact h
  obtain ⟨a1, _, a3⟩ := apply_score_throw_milestone_granted t2 hle
  constructor
  · rw [a1, hsc]
  · rw [a3, hsc, hgr, hch]

theorem activityTeam_chance_mono (t0 : Team) (dp : Nat) (category : String) (pc : Int) :
    t0.throw_chance ≤ (activityTeam t0 dp category pc).throw_chance := by
  rw [activityTeam_eq]
  set t2 := (if 0 < (compute_bonus (bumpedTeam t0 dp category pc)).1 then
    { (compute_bonus (bumpedTeam t0 dp category pc)).2 with
        score := (compute_bonus (bumpedTeam t0 dp category pc)).2.score +
          (compute_bonus (bumpedTeam t0 dp category pc)).1 }
  else (compute_bonus (bumpedTeam t0 dp category pc)).2) with ht2
  have hch : t2.throw_chance = t0.throw_chance := by
    rw [ht2]
    split_ifs <;> simp [cb_throw_chance, bumpedTeam]
  have := (apply_score_throw_milestone_mono t2).1
  omega

end BoardB

namespace BoardB

theorem findTeam_map {ts : List Team} {tid : String} {f : Team → Team}
    (hf : ∀ t, (f t).id = t.id) :
    findTeam (ts.map f) tid = (findTeam ts tid).map f := by
  induction ts with
  | nil => rfl
  | cons u us ih =>
    by_cases hu : u.id = tid
    · simp [findTeam, hu, hf]
    · simp [findTeam, hu, hf, ih]

theorem findTeam_nodup_self {ts : List Team} {t : Team}
    (hnd : (ts.map Team.id).Nodup) (hm : t ∈ ts) :
    findTeam ts t.id = some t := by
  induction ts with
  | nil => simp at hm
  | cons u us ih =>
    rcases List.mem_cons.mp hm with rfl | hm2
    · simp [findTeam]
    · have hne : u.id ≠ t.id := by
        simp only [List.map_cons, List.nodup_cons] at hnd
        intro h
        exact hnd.1 (h ▸ List.mem_map_of_mem Team.id hm2)
      have hnd2 : (us.map Team.id).Nodup := by
        simp only [List.map_cons, List.nodup_cons] at hnd
        exact hnd.2
      simp [findTeam, hne, ih hnd2 hm2]

theorem filter_updateFirst {ts : List Team} {tid : String} {f : Team → Team}
    {pred : Team → Bool}
    (hp : ∀ t, t.id = tid → pred t = false ∧ pred (f t) = false) :
    (updateFirst ts tid f).filter pred = ts.filter pred := by
  induction ts with
  | nil => rfl
  | cons u us ih =>
    by_cases hu : u.id = tid
    · obtain ⟨h1, h2⟩ := hp u hu
      simp [updateFirst, hu, List.filter_cons, h1, h2]
    · simp only [updateFirst, if_neg hu, List.filter_cons, ih]

theorem foldl_game_frame {α : Type} (f : Game → α → Game)
    (hf : ∀ h e, (f h e).teams = h.teams ∧ (f h e).finish_order = h.finish_order) :
    ∀ (L : List α) (G : Game),
      (L.foldl f G).teams = G.teams ∧ (L.foldl f G).finish_order = G.finish_order := by
  intro L
  induction L with
  | nil => intro G; exact ⟨rfl, rfl⟩
  | cons e es ih =>
    intro G
    obtain ⟨h1, h2⟩ := hf G e
    obtain ⟨h3, h4⟩ := ih (f G e)
    exact ⟨h3.trans h1, h4.trans h2⟩

theorem add_log_teams (g : Game) (now s : String) :
    (g.add_log now s).teams = g.teams := rfl

theorem add_log_finish_order (g : Game) (now s : String) :
    (g.add_log now s).finish_order = g.finish_order := rfl

theorem ensure_finish_fires (g : Game) (now tid : String) (t1 : Team)
    (ht : g.find_team tid = some t1)
    (hp : FINISH_POS ≤ t1.position)
    (hf : t1.finished_at = none) :
    (g.ensure_finish now tid).teams =
      updateFirst g.teams tid (fun _ => finishTeam t1 now) ∧
    (g.ensure_finish now tid).finish_order = g.finish_order ++ [t1.id] ∧
    ∃ e, (g.ensure_finish now tid).logs = (e :: g.logs).take 150 := by
  unfold Game.ensure_finish
  rw [ht]
  have hcond : FINISH_POS ≤ t1.position ∧ t1.finished_at = none := ⟨hp, hf⟩
  simp only [if_pos hcond, Game.add_log, finishTeam]
  exact ⟨trivial, trivial, _, rfl⟩

theorem ensure_finish_noop (g : Game) (now tid : String) (t1 : Team)
    (ht : g.find_team tid = some t1)
    (hn : ¬ (FINISH_POS ≤ t1.position ∧ t1.finished_at = none)) :
    g.ensure_finish now tid = g := by
  unfold Game.ensure_finish
  rw [ht]
  simp only [if_neg hn]

theorem ensure_finish_noop_of_none (g : Game) (now tid : String)
    (ht : g.find_team tid = none) :
    g.ensure_finish now tid = g := by
  unfold Game.ensure_finish
  rw [ht]

end BoardB

namespace BoardB

theorem capture_opponents_blocked (g : Game) (now tid : String) (actor : Team)
    (ha : g.find_team tid = some actor)
    (h : actor.position = 0 ∨ FINISH_POS ≤ actor.position) :
    g.capture_opponents now tid = g := by
  unfold Game.capture_opponents
  rw [ha]
  simp only [if_pos h]

theorem capture_opponents_empty (g : Game) (now tid : String) (actor : Team)
    (ha : g.find_team tid = some actor)
    (h : ¬ (actor.position = 0 ∨ FINISH_POS ≤ actor.position))
    (hL : g.teams.filter (fun t => decide (capturedBy actor t)) = []) :
    g.capture_opponents now tid = g := by
  unfold Game.capture_opponents
  rw [ha]
  simp [if_neg h, hL]

theorem capture_opponents_spec (g : Game) (now tid : String) (actor : Team)
    (ha : g.find_team tid = some actor)
    (hb : ¬ (actor.position = 0 ∨ FINISH_POS ≤ actor.position))
    (hL : g.teams.filter (fun t => decide (capturedBy actor t)) ≠ []) :
    (g.capture_opponents now tid).teams =
      updateFirst
        (g.teams.map fun t =>
          if capturedBy actor t then { t with position := checkpointOf t.position } else t)
        tid
        (fun _ => captureActor actor
          (g.teams.filter (fun t => decide (capturedBy actor t))).length) ∧
    (g.capture_opponents now tid).finish_order = g.finish_order := by
  unfold Game.capture_opponents
  rw [ha]
  simp only [if_neg hb, if_neg hL]
  have hfold := foldl_game_frame
    (fun (h : Game) enemy =>
      h.add_log now
        (actor.name ++ "이(가) " ++ enemy.name ++ "을(를) 잡았습니다. "
          ++ enemy.name ++ "은(는) "
          ++ toString (enemy.position / CHECKPOINT_INTERVAL * CHECKPOINT_INTERVAL)
          ++ "칸 체크포인트로 복귀합니다."))
    (fun h e => ⟨rfl, rfl⟩)
    (g.teams.filter (fun t => decide (capturedBy actor t)))
    { g with teams := g.teams.map fun t =>
        if capturedBy actor t then
          { t with position := t.position / CHECKPOINT_INTERVAL * CHECKPOINT_INTERVAL }
        else t }
  simp only [add_log_teams, add_log_finish_order]
  rw [hfold.1, hfold.2]
  simp only [captureActor, checkpointOf]
  exact ⟨trivial, trivial⟩

end BoardB

namespace BoardB

/-- `findTeam` after `updateFirst` with a function that keeps the matched id. -/
theorem findTeam_updateFirst_keep {ts : List Team} {tid : String} {f : Team → Team}
    (hf : ∀ t, t.id = tid → (f t).id = tid) :
    findTeam (updateFirst ts tid f) tid = (findTeam ts tid).map f := by
  induction ts with
  | nil => rfl
  | cons u us ih =>
    by_cases hu : u.id = tid
    · simp [updateFirst, findTeam, hu, hf u hu]
    · simp [updateFirst, findTeam, hu, ih]

theorem findTeam_updateFirst_keep_ne {ts : List Team} {tid tid2 : String} {f : Team → Team}
    (hf : ∀ t, t.id = tid → (f t).id = tid) (hne : tid2 ≠ tid) :
    findTeam (updateFirst ts tid f) tid2 = findTeam ts tid2 := by
  induction ts with
  | nil => rfl
  | cons u us ih =>
    by_cases hu : u.id = tid
    · have h2 : ¬ (f u).id = tid2 := by
        rw [hf u hu]; exact fun h => hne h.symm
      have h3 : ¬ u.id = tid2 := by
        rw [hu]; exact fun h => hne h.symm
      have h4 : ¬ tid = tid2 := fun h => hne h.symm
      simp [updateFirst, findTeam, hu, h2, h3, h4]
    · simp only [updateFirst, if_neg hu, findTeam]
      by_cases hu2 : u.id = tid2
      · simp [hu2]
      · simp [hu2, ih]

theorem updateFirst_updateFirst_keep {ts : List Team} {tid : String} {f h : Team → Team}
    (hf : ∀ t, t.id = tid → (f t).id = tid) :
    updateFirst (updateFirst ts tid f) tid h = updateFirst ts tid (fun t => h (f t)) := by
  induction ts with
  | nil => rfl
  | cons u us ih =>
    by_cases hu : u.id = tid
    · simp [updateFirst, hu, hf u hu]
    · simp [updateFirst, hu, ih]

theorem updateFirst_map_id_keep {ts : List Team} {tid : String} {f : Team → Team}
    (hf : ∀ t, t.id = tid → (f t).id = t.id) :
    (updateFirst ts tid f).map Team.id = ts.map Team.id := by
  induction ts with
  | nil => rfl
  | cons u us ih =>
    by_cases hu : u.id = tid
    · simp [updateFirst, hu, hf u hu]
    · simp [updateFirst, hu, ih]

/-- Mapping an id-preserving function that fixes the written value commutes
with a constant `updateFirst`. -/
theorem updateFirst_const_map {ts : List Team} {tid : String} {t1 : Team}
    {f : Team → Team}
    (hidf : ∀ t, (f t).id = t.id) (hfix : f t1 = t1) :
    (updateFirst ts tid (fun _ => t1)).map f =
      updateFirst (ts.map f) tid (fun _ => t1) := by
  induction ts with
  | nil => rfl
  | cons u us ih =>
    by_cases hu : u.id = tid
    · have : (f u).id = tid := by rw [hidf u, hu]
      simp [updateFirst, hu, this, hfix]
    · have : ¬ (f u).id = tid := by rw [hidf u]; exact hu
      simp [updateFirst, hu, this, ih]

end BoardB

namespace BoardB

theorem throw_yut_finish (g : Game) (now tid : String) (yut : YutOutcome) (team : Team)
    (ht : g.find_team tid = some team)
    (hf : team.finished_at = none)
    (hc : ¬ team.throw_chance = 0)
    (hp : FINISH_POS ≤ (movedTeam team yut).position) :
    (g.throw_yut now tid yut).1 = true ∧
    (g.throw_yut now tid yut).2.2.teams =
      updateFirst g.teams tid
        (fun _ => extraTeam (finishTeam (movedTeam team yut) now) yut) ∧
    (g.throw_yut now tid yut).2.2.finish_order = g.finish_order ++ [team.id] := by
  have hid : team.id = tid := findTeam_id ht
  have hmtid : (movedTeam team yut).id = tid := hid
  have hkeep1 : ∀ t : Team, t.id = tid → ((fun _ => movedTeam team yut) t).id = tid :=
    fun t _ => hmtid
  have hSome : team.finished_at.isSome = false := by rw [hf]; rfl
  have ht' : findTeam g.teams tid = some team := ht
  unfold Game.throw_yut
  rw [ht]
  simp only [hSome, Bool.false_eq_true, if_false, hc, reduceIte]
  set g1 : Game :=
    { g with teams := updateFirst g.teams tid (fun _ => movedTeam team yut) } with hg1
  have hfind1 : g1.find_team tid = some (movedTeam team yut) := by
    show findTeam g1.teams tid = _
    rw [hg1]
    show findTeam (updateFirst g.teams tid (fun _ => movedTeam team yut)) tid = _
    rw [findTeam_updateFirst_keep hkeep1, ht']
    rfl
  have hmf : (movedTeam team yut).finished_at = none := hf
  obtain ⟨hE1, hE2, hE3⟩ := ensure_finish_fires g1 now tid (movedTeam team yut) hfind1 hp hmf
  have hteams2 : (g1.ensure_finish now tid).teams =
      updateFirst g.teams tid (fun _ => finishTeam (movedTeam team yut) now) := by
    rw [hE1, hg1]
    show updateFirst (updateFirst g.teams tid (fun _ => movedTeam team yut)) tid _ = _
    exact (updateFirst_updateFirst_keep hkeep1).trans rfl
  have hfo2 : (g1.ensure_finish now tid).finish_order = g.finish_order ++ [team.id] := by
    rw [hE2, hg1]
    rfl
  have hfinid : (finishTeam (movedTeam team yut) now).id = tid := by
    unfold finishTeam
    rw [milestone_id]
    exact hmtid
  have hfind2 : (g1.ensure_finish now tid).find_team tid =
      some (finishTeam (movedTeam team yut) now) := by
    show findTeam (g1.ensure_finish now tid).teams tid = _
    rw [hteams2, findTeam_updateFirst_keep (fun t _ => hfinid), ht']
    rfl
  rw [hfind2]
  have hfinfin : (finishTeam (movedTeam team yut) now).finished_at = some now := by
    unfold finishTeam
    rw [milestone_finished_at]
  simp only [hfinfin, reduceCtorEq, if_false]
  by_cases hx : 0 < yut.extra_throw
  · simp only [if_pos hx, add_log_teams, add_log_finish_order]
    refine ⟨trivial, ?_, hfo2⟩
    rw [hteams2]
    exact (updateFirst_updateFirst_keep (fun t _ => hfinid)).trans rfl
  · simp only [if_neg hx, add_log_teams, add_log_finish_order]
    have hz : yut.extra_throw = 0 := by omega
    refine ⟨trivial, ?_, hfo2⟩
    rw [hteams2]
    simp only [extraTeam, hz]
    rfl

end BoardB

namespace BoardB

/-- The teams standing on the actor's cell that a throw captures. -/
def capturedOf (g : Game) (actor : Team) : List Team :=
  g.teams.filter fun t => decide (capturedBy actor t)

theorem capturedBy_self_false (actor : Team) : capturedBy actor actor → False :=
  fun h => h.1 rfl

theorem throw_yut_noCapture (g : Game) (now tid : String) (yut : YutOutcome) (team : Team)
    (ht : g.find_team tid = some team)
    (hf : team.finished_at = none)
    (hc : ¬ team.throw_chance = 0)
    (hp1 : (movedTeam team yut).position < FINISH_POS)
    (hnc : (movedTeam team yut).position = 0 ∨ capturedOf g (movedTeam team yut) = []) :
    (g.throw_yut now tid yut).1 = true ∧
    (g.throw_yut now tid yut).2.2.teams =
      updateFirst g.teams tid (fun _ => extraTeam (movedTeam team yut) yut) ∧
    (g.throw_yut now tid yut).2.2.finish_order = g.finish_order := by
  have hid : team.id = tid := findTeam_id ht
  have hmtid : (movedTeam team yut).id = tid := hid
  have hkeep1 : ∀ t : Team, t.id = tid → ((fun _ => movedTeam team yut) t).id = tid :=
    fun t _ => hmtid
  have hSome : team.finished_at.isSome = false := by rw [hf]; rfl
  have ht' : findTeam g.teams tid = some team := ht
  unfold Game.throw_yut
  rw [ht]
  simp only [hSome, Bool.false_eq_true, if_false, hc, reduceIte]
  set g1 : Game :=
    { g with teams := updateFirst g.teams tid (fun _ => movedTeam team yut) } with hg1
  have hfind1 : g1.find_team tid = some (movedTeam team yut) := by
    show findTeam g1.teams tid = _
    rw [hg1]
    show findTeam (updateFirst g.teams tid (fun _ => movedTeam team yut)) tid = _
    rw [findTeam_updateFirst_keep hkeep1, ht']
    rfl
  have hmf : (movedTeam team yut).finished_at = none := hf
  have hnof : g1.ensure_finish now tid = g1 :=
    ensure_finish_noop g1 now tid (movedTeam team yut) hfind1
      (fun h => absurd h.1 (by omega))
  rw [hnof, hfind1]
  simp only [hmf, if_pos rfl, reduceIte]
  have hfiltereq : g1.teams.filter (fun t => decide (capturedBy (movedTeam team yut) t)) =
      capturedOf g (movedTeam team yut) := by
    show (updateFirst g.teams tid fun _ => movedTeam team yut).filter _ = _
    rw [filter_updateFirst]
    · rfl
    · intro t htid
      constructor
      · simp only [decide_eq_false_iff_not]
        intro hcap
        exact hcap.1 (htid.trans hmtid.symm)
      · simp only [decide_eq_false_iff_not]
        exact capturedBy_self_false (movedTeam team yut)
  have hcapnoop : g1.capture_opponents now tid = g1 := by
    by_cases hz : (movedTeam team yut).position = 0
    · exact capture_opponents_blocked g1 now tid (movedTeam team yut) hfind1 (Or.inl hz)
    · have hL : capturedOf g (movedTeam team yut) = [] := by
        rcases hnc with h0 | hL
        · exact absurd h0 hz
        · exact hL
      refine capture_opponents_empty g1 now tid (movedTeam team yut) hfind1 ?_ ?_
      · intro h
        rcases h with h | h
        · exact hz h
        · omega
      · rw [hfiltereq]; exact hL
  rw [hcapnoop]
  by_cases hx : 0 < yut.extra_throw
  · simp only [if_pos hx, add_log_teams, add_log_finish_order]
    refine ⟨trivial, ?_, trivial⟩
    exact (updateFirst_updateFirst_keep hkeep1).trans rfl
  · simp only [if_neg hx, add_log_teams, add_log_finish_order]
    have hz0 : yut.extra_throw = 0 := by omega
    refine ⟨trivial, ?_, trivial⟩
    simp only [extraTeam, hz0]
    rfl

end BoardB

namespace BoardB

theorem throw_yut_capture (g : Game) (now tid : String) (yut : YutOutcome) (team : Team)
    (ht : g.find_team tid = some team)
    (hf : team.finished_at = none)
    (hc : ¬ team.throw_chance = 0)
    (hp0 : 0 < (movedTeam team yut).position)
    (hp1 : (movedTeam team yut).position < FINISH_POS)
    (hne : capturedOf g (movedTeam team yut) ≠ []) :
    (g.throw_yut now tid yut).1 = true ∧
    (g.throw_yut now tid yut).2.2.teams =
      updateFirst
        (g.teams.map fun t =>
          if capturedBy (movedTeam team yut) t then
            { t with position := checkpointOf t.position }
          else t)
        tid
        (fun _ => extraTeam
          (captureActor (movedTeam team yut) (capturedOf g (movedTeam team yut)).length)
          yut) ∧
    (g.throw_yut now tid yut).2.2.finish_order = g.finish_order := by
  have hid : team.id = tid := findTeam_id ht
  have hmtid : (movedTeam team yut).id = tid := hid
  have hkeep1 : ∀ t : Team, t.id = tid → ((fun _ => movedTeam team yut) t).id = tid :=
    fun t _ => hmtid
  have hSome : team.finished_at.isSome = false := by rw [hf]; rfl
  have ht' : findTeam g.teams tid = some team := ht
  unfold Game.throw_yut
  rw [ht]
  simp only [hSome, Bool.false_eq_true, if_false, hc, reduceIte]
  set g1 : Game :=
    { g with teams := updateFirst g.teams tid (fun _ => movedTeam team yut) } with hg1
  have hfind1 : g1.find_team tid = some (movedTeam team yut) := by
    show findTeam g1.teams tid = _
    rw [hg1]
    show findTeam (updateFirst g.teams tid (fun _ => movedTeam team yut)) tid = _
    rw [findTeam_updateFirst_keep hkeep1, ht']
    rfl
  have hmf : (movedTeam team yut).finished_at = none := hf
  have hnof : g1.ensure_finish now tid = g1 :=
    ensure_finish_noop g1 now tid (movedTeam team yut) hfind1
      (fun h => absurd h.1 (by omega))
  rw [hnof, hfind1]
  simp only [hmf, if_pos rfl, reduceIte]
  have hfiltereq : g1.teams.filter (fun t => decide (capturedBy (movedTeam team yut) t)) =
      capturedOf g (movedTeam team yut) := by
    show (updateFirst g.teams tid fun _ => movedTeam team yut).filter _ = _
    rw [filter_updateFirst]
    · rfl
    · intro t htid
      refine ⟨?_, ?_⟩
      · simp only [decide_eq_false_iff_not]
        intro hcap
        exact hcap.1 (htid.trans hmtid.symm)
      · simp only [decide_eq_false_iff_not]
        exact capturedBy_self_false (movedTeam team yut)
  have hblocked : ¬ ((movedTeam team yut).position = 0 ∨
      FINISH_POS ≤ (movedTeam team yut).position) := by
    intro h
    rcases h with h | h <;> omega
  have hL1 : g1.teams.filter (fun t => decide (capturedBy (movedTeam team yut) t)) ≠ [] := by
    rw [hfiltereq]; exact hne
  obtain ⟨hcapT, hcapF⟩ :=
    capture_opponents_spec g1 now tid (movedTeam team yut) hfind1 hblocked hL1
  have hcapfn_id : ∀ t : Team,
      ((if capturedBy (movedTeam team yut) t then
          { t with position := checkpointOf t.position } else t) : Team).id = t.id := by
    intro t
    split_ifs <;> rfl
  have hcapfn_fix :
      (if capturedBy (movedTeam team yut) (movedTeam team yut) then
        { (movedTeam team yut) with
            position := checkpointOf (movedTeam team yut).position }
      else (movedTeam team yut)) = movedTeam team yut := by
    rw [if_neg (capturedBy_self_false (movedTeam team yut))]
  have hcaid : (captureActor (movedTeam team yut)
      (capturedOf g (movedTeam team yut)).length).id = tid := by
    unfold captureActor
    rw [milestone_id]
    exact hmtid
  have hteams3 : (g1.capture_opponents now tid).teams =
      updateFirst
        (g.teams.map fun t =>
          if capturedBy (movedTeam team yut) t then
            { t with position := checkpointOf t.position }
          else t)
        tid
        (fun _ => captureActor (movedTeam team yut)
          (capturedOf g (movedTeam team yut)).length) := by
    rw [hcapT, hfiltereq]
    have hmap : g1.teams.map (fun t =>
        if capturedBy (movedTeam team yut) t then
          { t with position := checkpointOf t.position } else t) =
        updateFirst
          (g.teams.map fun t =>
            if capturedBy (movedTeam team yut) t then
              { t with position := checkpointOf t.position }
            else t)
          tid (fun _ => movedTeam team yut) := by
      show (updateFirst g.teams tid fun _ => movedTeam team yut).map _ = _
      exact updateFirst_const_map hcapfn_id hcapfn_fix
    rw [hmap]
    exact (updateFirst_updateFirst_keep (fun t _ => hmtid)).trans rfl
  by_cases hx : 0 < yut.extra_throw
  · simp only [if_pos hx, add_log_teams, add_log_finish_order]
    refine ⟨trivial, ?_, by rw [hcapF, hg1]⟩
    rw [hteams3]
    exact (updateFirst_updateFirst_keep (fun t _ => hcaid)).trans rfl
  · simp only [if_neg hx, add_log_teams, add_log_finish_order]
    have hz0 : yut.extra_throw = 0 := by omega
    refine ⟨trivial, ?_, by rw [hcapF, hg1]⟩
    rw [hteams3]
    simp only [extraTeam, hz0]
    rfl

end BoardB

namespace BoardB

/-- One public mutating operation of the variant-B engine.  The clock value,
the generated team id (assumed fresh, as the timestamp+random id generator is
specified to produce unique ids), and the drawn yut outcome are the external
inputs of a step. -/
inductive Step : Game → Game → Prop
  | add_team (g : Game) (now newId rawName : String)
      (hfresh : ∀ t ∈ g.teams, t.id ≠ newId) :
      Step g (g.add_team now newId rawName).2.2
  | record_activity (g : Game) (now tid difficulty category : String)
      (pc : Int) (title : String) :
      Step g (g.record_activity now tid difficulty category pc title).2.2
  | throw_yut (g : Game) (now tid : String) (yut : YutOutcome)
      (hy : yut ∈ YUT_OUTCOMES) :
      Step g (g.throw_yut now tid yut).2.2
  | reset (g : Game) : Step g g.reset

/-- States reachable from a fresh game by public operations. -/
inductive Reachable : Game → Prop
  | init : Reachable Game.init
  | step {g g2 : Game} : Reachable g → Step g g2 → Reachable g2

/-- The per-team state invariant, relative to the finish order. -/
def TeamInv (fo : List String) (t : Team) : Prop :=
  t.position ≤ FINISH_POS ∧
  (t.finished_at.isSome ↔ t.position = FINISH_POS) ∧
  (t.finished_at.isSome ↔ t.id ∈ fo) ∧
  t.throw_granted_by_score = t.score / SCORE_PER_THROW

/-- The global state invariant maintained by every operation. -/
def Inv (g : Game) : Prop :=
  (g.teams.map Team.id).Nodup ∧
  g.finish_order.Nodup ∧
  (∀ fid ∈ g.finish_order, ∃ t ∈ g.teams, t.id = fid) ∧
  (∀ t ∈ g.teams, TeamInv g.finish_order t)

/-- With unique ids, an element of `updateFirst` is either an untouched team
with a different id or the image of the matched team. -/
theorem mem_updateFirst_nodup {ts : List Team} {tid : String} {f : Team → Team} {u : Team}
    (hnd : (ts.map Team.id).Nodup)
    (hm : u ∈ updateFirst ts tid f) :
    (u ∈ ts ∧ u.id ≠ tid) ∨ ∃ t, t ∈ ts ∧ t.id = tid ∧ u = f t := by
  induction ts with
  | nil => simp [updateFirst] at hm
  | cons v vs ih =>
    have hndv : v.id ∉ vs.map Team.id := by
      simp only [List.map_cons, List.nodup_cons] at hnd
      exact hnd.1
    have hnd2 : (vs.map Team.id).Nodup := by
      simp only [List.map_cons, List.nodup_cons] at hnd
      exact hnd.2
    by_cases hv : v.id = tid
    · simp only [updateFirst, if_pos hv] at hm
      rcases List.mem_cons.mp hm with rfl | hm2
      · exact Or.inr ⟨v, List.mem_cons_self .., hv, rfl⟩
      · left
        refine ⟨List.mem_cons_of_mem _ hm2, ?_⟩
        intro hu
        exact hndv (hv ▸ hu ▸ List.mem_map_of_mem Team.id hm2)
    · simp only [updateFirst, if_neg hv] at hm
      rcases List.mem_cons.mp hm with rfl | hm2
      · exact Or.inl ⟨List.mem_cons_self .., hv⟩
      · rcases ih hnd2 hm2 with ⟨h1, h2⟩ | ⟨t, h1, h2, h3⟩
        · exact Or.inl ⟨List.mem_cons_of_mem _ h1, h2⟩
        · exact Or.inr ⟨t, List.mem_cons_of_mem _ h1, h2, h3⟩

theorem inv_init : Inv Game.init := by
  refine ⟨List.nodup_nil, List.nodup_nil, ?_, ?_⟩ <;> intro x hx <;> simp [Game.init] at hx

theorem inv_reset (g : Game) : Inv g.reset := inv_init

end BoardB

namespace BoardB

theorem inv_add_team (g : Game) (now newId rawName : String)
    (hfresh : ∀ t ∈ g.teams, t.id ≠ newId)
    (hinv : Inv g) :
    Inv (g.add_team now newId rawName).2.2 := by
  obtain ⟨hnd, hfnd, hsub, hteam⟩ := hinv
  simp only [Game.add_team]
  split_ifs with h1 h2
  · exact ⟨hnd, hfnd, hsub, hteam⟩
  · exact ⟨hnd, hfnd, hsub, hteam⟩
  · simp only [Inv, add_log_teams, add_log_finish_order]
    have hfreshfo : newId ∉ g.finish_order := by
      intro hmem
      obtain ⟨t, htm, htid⟩ := hsub newId hmem
      exact hfresh t htm htid
    refine ⟨?_, hfnd, ?_, ?_⟩
    · simp only [List.map_append, List.map_cons, List.map_nil]
      rw [List.nodup_append]
      refine ⟨hnd, List.nodup_singleton _, ?_⟩
      intro a ha hb
      simp only [List.mem_singleton] at hb
      subst hb
      obtain ⟨t, htm, htid⟩ := List.mem_map.mp ha
      exact hfresh t htm htid
    · intro fid hfid
      obtain ⟨t, htm, htid⟩ := hsub fid hfid
      exact ⟨t, List.mem_append_left _ htm, htid⟩
    · intro t htm
      rcases List.mem_append.mp htm with htm | htm
      · exact hteam t htm
      · simp only [List.mem_singleton] at htm
        subst htm
        refine ⟨by norm_num [FINISH_POS], ?_, ?_, by norm_num [SCORE_PER_THROW]⟩ <;>
          simp [FINISH_POS, hfreshfo, TeamInv]

end BoardB

namespace BoardB

/-- Validation outcome of `record_activity`: the call fails exactly on an
unknown team, bad difficulty, bad category or non-positive participant count,
and a failing call returns the state unchanged with the matching reason. -/
theorem record_activity_fail (g : Game) (now tid difficulty category : String)
    (pc : Int) (title : String) :
    ((g.record_activity now tid difficulty category pc title).1 = false ↔
      (g.find_team tid = none ∨ DIFFICULTY_POINTS difficulty = none ∨
        category ∉ CATEGORIES ∨ pc < 1)) ∧
    ((g.record_activity now tid difficulty category pc title).1 = false →
      (g.record_activity now tid difficulty category pc title).2.2 = g ∧
      (g.record_activity now tid difficulty category pc title).2.1 ≠ "") := by
  unfold Game.record_activity
  cases ht : g.find_team tid with
  | none => simp
  | some team =>
    cases hd : DIFFICULTY_POINTS difficulty with
    | none => simp
    | some dp =>
      by_cases hcat : category ∉ CATEGORIES
      · simp [hcat]
      · by_cases hpc : pc < 1
        · simp [hcat, hpc]
        · simp [hcat, hpc]

end BoardB

namespace BoardB

theorem inv_record (g : Game) (now tid difficulty category : String)
    (pc : Int) (title : String) (hinv : Inv g) :
    Inv (g.record_activity now tid difficulty category pc title).2.2 := by
  obtain ⟨hnd, hfnd, hsub, hteam⟩ := hinv
  by_cases hfail : (g.record_activity now tid difficulty category pc title).1 = false
  · obtain ⟨hunch, _⟩ :=
      (record_activity_fail g now tid difficulty category pc title).2 hfail
    rw [hunch]
    exact ⟨hnd, hfnd, hsub, hteam⟩
  · have hvalid := (record_activity_fail g now tid difficulty category pc title).1
    have hval : ¬ (g.find_team tid = none ∨ DIFFICULTY_POINTS difficulty = none ∨
        category ∉ CATEGORIES ∨ pc < 1) := fun h => hfail (hvalid.mpr h)
    push_neg at hval
    obtain ⟨hfind, hdp, hcat, hpc⟩ := hval
    obtain ⟨t0, ht0⟩ := Option.ne_none_iff_exists.mp hfind
    obtain ⟨dp, hdp0⟩ := Option.ne_none_iff_exists.mp hdp
    have ht0' : g.find_team tid = some t0 := ht0.symm
    have hdp' : DIFFICULTY_POINTS difficulty = some dp := hdp0.symm
    obtain ⟨_, _, hteams, hfo, _⟩ :=
      record_activity_success g now tid difficulty category pc title t0 dp
        ht0' hdp' hcat (by omega)
    have hid0 : t0.id = tid := findTeam_id ht0'
    have ht0mem : t0 ∈ g.teams := findTeam_mem ht0'
    obtain ⟨hpos0, hiff10, hiff20, hgr0⟩ := hteam t0 ht0mem
    have hkeep : ∀ t : Team, t.id = tid →
        ((fun _ => activityTeam t0 dp category pc) t).id = t.id := by
      intro t htid
      rw [activityTeam_id, hid0, htid]
    refine ⟨?_, ?_, ?_, ?_⟩
    · rw [hteams, updateFirst_map_id_keep hkeep]
      exact hnd
    · rw [hfo]; exact hfnd
    · rw [hfo, hteams]
      intro fid hfid
      obtain ⟨t, htm, htid⟩ := hsub fid hfid
      have hmm : fid ∈ (updateFirst g.teams tid
          (fun _ => activityTeam t0 dp category pc)).map Team.id := by
        rw [updateFirst_map_id_keep hkeep, ← htid]
        exact List.mem_map_of_mem Team.id htm
      obtain ⟨u, hu, huid⟩ := List.mem_map.mp hmm
      exact ⟨u, hu, huid⟩
    · rw [hfo, hteams]
      intro u hu
      rcases mem_updateFirst_nodup hnd hu with ⟨hum, _⟩ | ⟨t, _, _, hueq⟩
      · exact hteam u hum
      · subst hueq
        have hscore := activityTeam_score t0 dp category pc
        have hgrle : t0.throw_granted_by_score ≤
            (t0.score + activityEarned dp pc +
              (compute_bonus (bumpedTeam t0 dp category pc)).1) / SCORE_PER_THROW := by
          rw [hgr0]
          exact Nat.div_le_div_right (by omega)
        obtain ⟨hgr, _⟩ := activityTeam_granted t0 dp category pc hgrle
        refine ⟨?_, ?_, ?_, hgr⟩
        · rw [activityTeam_position]; exact hpos0
        · rw [activityTeam_finished_at, activityTeam_position]; exact hiff10
        · rw [activityTeam_finished_at, activityTeam_id]; exact hiff20

end BoardB

namespace BoardB

theorem extraTeam_id (t : Team) (yut : YutOutcome) : (extraTeam t yut).id = t.id := rfl

theorem extraTeam_position (t : Team) (yut : YutOutcome) :
    (extraTeam t yut).position = t.position := rfl

theorem extraTeam_finished_at (t : Team) (yut : YutOutcome) :
    (extraTeam t yut).finished_at = t.finished_at := rfl

theorem extraTeam_score (t : Team) (yut : YutOutcome) : (extraTeam t yut).score = t.score := rfl

theorem extraTeam_granted (t : Team) (yut : YutOutcome) :
    (extraTeam t yut).throw_granted_by_score = t.throw_granted_by_score := rfl

theorem movedTeam_id (t : Team) (yut : YutOutcome) : (movedTeam t yut).id = t.id := rfl

theorem movedTeam_score (t : Team) (yut : YutOutcome) : (movedTeam t yut).score = t.score := rfl

theorem movedTeam_granted (t : Team) (yut : YutOutcome) :
    (movedTeam t yut).throw_granted_by_score = t.throw_granted_by_score := rfl

theorem movedTeam_finished_at (t : Team) (yut : YutOutcome) :
    (movedTeam t yut).finished_at = t.finished_at := rfl

theorem finishTeam_id (t : Team) (now : String) : (finishTeam t now).id = t.id := by
  unfold finishTeam
  rw [milestone_id]

theorem finishTeam_position (t : Team) (now : String) :
    (finishTeam t now).position = FINISH_POS := by
  unfold finishTeam
  rw [milestone_position]

theorem finishTeam_finished_at (t : Team) (now : String) :
    (finishTeam t now).finished_at = some now := by
  unfold finishTeam
  rw [milestone_finished_at]

theorem finishTeam_score (t : Team) (now : String) :
    (finishTeam t now).score = t.score + 50 := by
  unfold finishTeam
  rw [milestone_score]

theorem finishTeam_granted (t : Team) (now : String)
    (h : t.throw_granted_by_score ≤ (t.score + 50) / SCORE_PER_THROW) :
    (finishTeam t now).throw_granted_by_score =
      (finishTeam t now).score / SCORE_PER_THROW := by
  unfold finishTeam
  rw [milestone_score]
  exact (apply_score_throw_milestone_granted
    { t with position := FINISH_POS, finished_at := some now, score := t.score + 50 } h).1

theorem captureActor_id (actor : Team) (cnt : Nat) : (captureActor actor cnt).id = actor.id := by
  unfold captureActor
  rw [milestone_id]

theorem captureActor_position (actor : Team) (cnt : Nat) :
    (captureActor actor cnt).position = actor.position := by
  unfold captureActor
  rw [milestone_position]

theorem captureActor_finished_at (actor : Team) (cnt : Nat) :
    (captureActor actor cnt).finished_at = actor.finished_at := by
  unfold captureActor
  rw [milestone_finished_at]

theorem captureActor_score (actor : Team) (cnt : Nat) :
    (captureActor actor cnt).score = actor.score + 30 * cnt := by
  unfold captureActor
  rw [milestone_score]

theorem captureActor_granted (actor : Team) (cnt : Nat)
    (h : actor.throw_granted_by_score ≤ (actor.score + 30 * cnt) / SCORE_PER_THROW) :
    (captureActor actor cnt).throw_granted_by_score =
      (captureActor actor cnt).score / SCORE_PER_THROW := by
  unfold captureActor
  rw [milestone_score]
  exact (apply_score_throw_milestone_granted
    { actor with
        score := actor.score + 30 * cnt
        throw_chance := actor.throw_chance + cnt } h).1

/-- The three validation failures of `throw_yut`: unknown team, finished
team, exhausted throw budget.  Each returns its reason and leaves the state
unchanged. -/
theorem throw_yut_fail_cases (g : Game) (now tid : String) (yut : YutOutcome) :
    (g.find_team tid = none →
      g.throw_yut now tid yut = (false, "유효하지 않은 팀입니다.", g)) ∧
    (∀ t, g.find_team tid = some t → t.finished_at.isSome →
      g.throw_yut now tid yut = (false, "이미 완주한 팀입니다.", g)) ∧
    (∀ t, g.find_team tid = some t → t.finished_at = none → t.throw_chance = 0 →
      g.throw_yut now tid yut =
        (false, "던지기 기회가 없습니다. 활동으로 점수를 쌓아 40점 단위를 달성해주세요.", g)) := by
  refine ⟨?_, ?_, ?_⟩
  · intro h
    unfold Game.throw_yut
    rw [h]
  · intro t ht hfin
    unfold Game.throw_yut
    rw [ht]
    simp [hfin]
  · intro t ht hfin hch
    unfold Game.throw_yut
    rw [ht]
    have hSome : t.finished_at.isSome = false := by rw [hfin]; rfl
    simp [hSome, hch]

/-- A throw with a live team and a positive budget always succeeds. -/
theorem throw_yut_ok (g : Game) (now tid : String) (yut : YutOutcome) (t : Team)
    (ht : g.find_team tid = some t) (hf : t.finished_at = none)
    (hc : ¬ t.throw_chance = 0) :
    (g.throw_yut now tid yut).1 = true := by
  by_cases hp : FINISH_POS ≤ (movedTeam t yut).position
  · exact (throw_yut_finish g now tid yut t ht hf hc hp).1
  · by_cases hz : (movedTeam t yut).position = 0
    · exact (throw_yut_noCapture g now tid yut t ht hf hc (by omega) (Or.inl hz)).1
    · by_cases hL : capturedOf g (movedTeam t yut) = []
      · exact (throw_yut_noCapture g now tid yut t ht hf hc (by omega) (Or.inr hL)).1
      · exact (throw_yut_capture g now tid yut t ht hf hc (by omega) (by omega) hL).1

end BoardB

namespace BoardB

theorem inv_throw (g : Game) (now tid : String) (yut : YutOutcome) (hinv : Inv g) :
    Inv (g.throw_yut now tid yut).2.2 := by
  obtain ⟨hnd, hfnd, hsub, hteam⟩ := hinv
  cases ht : g.find_team tid with
  | none =>
    rw [(throw_yut_fail_cases g now tid yut).1 ht]
    exact ⟨hnd, hfnd, hsub, hteam⟩
  | some team =>
    by_cases hfin : team.finished_at.isSome
    · rw [(throw_yut_fail_cases g now tid yut).2.1 team ht hfin]
      exact ⟨hnd, hfnd, hsub, hteam⟩
    · have hf : team.finished_at = none := Option.not_isSome_iff_eq_none.mp hfin
      by_cases hch : team.throw_chance = 0
      · rw [(throw_yut_fail_cases g now tid yut).2.2 team ht hf hch]
        exact ⟨hnd, hfnd, hsub, hteam⟩
      · have hid : team.id = tid := findTeam_id ht
        have hmem : team ∈ g.teams := findTeam_mem ht
        obtain ⟨hpos0, hiff1, hiff2, hgr⟩ := hteam team hmem
        have hnotfo : team.id ∉ g.finish_order := by
          intro hx
          have := hiff2.mpr hx
          rw [hf] at this
          simp at this
        by_cases hp : FINISH_POS ≤ (movedTeam team yut).position
        · -- the throw finishes the race
          obtain ⟨_, hteams, hfo⟩ := throw_yut_finish g now tid yut team ht hf hch hp
          have hxid : (extraTeam (finishTeam (movedTeam team yut) now) yut).id = tid := by
            rw [extraTeam_id, finishTeam_id, movedTeam_id, hid]
          have hxpos : (extraTeam (finishTeam (movedTeam team yut) now) yut).position =
              FINISH_POS := by
            rw [extraTeam_position, finishTeam_position]
          have hxfin : (extraTeam (finishTeam (movedTeam team yut) now) yut).finished_at =
              some now := by
            rw [extraTeam_finished_at, finishTeam_finished_at]
          have hxgr : (extraTeam (finishTeam (movedTeam team yut) now) yut).throw_granted_by_score =
              (extraTeam (finishTeam (movedTeam team yut) now) yut).score /
                SCORE_PER_THROW := by
            rw [extraTeam_granted, extraTeam_score]
            apply finishTeam_granted
            rw [movedTeam_granted, movedTeam_score, hgr]
            exact Nat.div_le_div_right (by omega)
          have hkeep : ∀ t : Team, t.id = tid →
              ((fun _ => extraTeam (finishTeam (movedTeam team yut) now) yut) t).id = t.id := by
            intro t htid
            rw [hxid, htid]
          refine ⟨?_, ?_, ?_, ?_⟩
          · rw [hteams, updateFirst_map_id_keep hkeep]
            exact hnd
          · rw [hfo]
            simp [List.nodup_append, hfnd, hnotfo]
          · rw [hfo, hteams]
            intro fid hfid
            rcases List.mem_append.mp hfid with hfid | hfid
            · obtain ⟨t, htm, htid⟩ := hsub fid hfid
              have hmm : fid ∈ (updateFirst g.teams tid
                  (fun _ => extraTeam (finishTeam (movedTeam team yut) now) yut)).map Team.id := by
                rw [updateFirst_map_id_keep hkeep, ← htid]
                exact List.mem_map_of_mem Team.id htm
              obtain ⟨u, hu, huid⟩ := List.mem_map.mp hmm
              exact ⟨u, hu, huid⟩
            · simp only [List.mem_singleton] at hfid
              subst hfid
              have hmm : team.id ∈ (updateFirst g.teams tid
                  (fun _ => extraTeam (finishTeam (movedTeam team yut) now) yut)).map Team.id := by
                rw [updateFirst_map_id_keep hkeep]
                exact List.mem_map_of_mem Team.id hmem
              obtain ⟨u, hu, huid⟩ := List.mem_map.mp hmm
              exact ⟨u, hu, huid⟩
          · rw [hfo, hteams]
            intro u hu
            rcases mem_updateFirst_nodup hnd hu with ⟨hum, hune⟩ | ⟨t, _, _, hueq⟩
            · obtain ⟨hp1, hi1, hi2, hg1⟩ := hteam u hum
              refine ⟨hp1, hi1, ?_, hg1⟩
              rw [hi2]
              constructor
              · intro hmem2
                exact List.mem_append_left _ hmem2
              · intro hmem2
                rcases List.mem_append.mp hmem2 with h | h
                · exact h
                · simp only [List.mem_singleton] at h
                  exact absurd (h.trans hid) hune
            · subst hueq
              refine ⟨by rw [hxpos], ?_, ?_, hxgr⟩
              · rw [hxfin, hxpos]
                simp
              · rw [hxfin, hxid, ← hid]
                simp
        · -- the throw does not finish
          by_cases hnc : (movedTeam team yut).position = 0 ∨
              capturedOf g (movedTeam team yut) = []
          · -- no capture happens
            obtain ⟨_, hteams, hfo⟩ :=
              throw_yut_noCapture g now tid yut team ht hf hch (by omega) hnc
            have hxid : (extraTeam (movedTeam team yut) yut).id = tid := by
              rw [extraTeam_id, movedTeam_id, hid]
            have hxfin : (extraTeam (movedTeam team yut) yut).finished_at = none := by
              rw [extraTeam_finished_at, movedTeam_finished_at, hf]
            have hxpos : (extraTeam (movedTeam team yut) yut).position =
                (movedTeam team yut).position := extraTeam_position ..
            have hxgr : (extraTeam (movedTeam team yut) yut).throw_granted_by_score =
                (extraTeam (movedTeam team yut) yut).score / SCORE_PER_THROW := by
              rw [extraTeam_granted, extraTeam_score, movedTeam_granted, movedTeam_score]
              exact hgr
            have hkeep : ∀ t : Team, t.id = tid →
                ((fun _ => extraTeam (movedTeam team yut) yut) t).id = t.id := by
              intro t htid
              rw [hxid, htid]
            refine ⟨?_, ?_, ?_, ?_⟩
            · rw [hteams, updateFirst_map_id_keep hkeep]
              exact hnd
            · rw [hfo]; exact hfnd
            · rw [hfo, hteams]
              intro fid hfid
              obtain ⟨t, htm, htid⟩ := hsub fid hfid
              have hmm : fid ∈ (updateFirst g.teams tid
                  (fun _ => extraTeam (movedTeam team yut) yut)).map Team.id := by
                rw [updateFirst_map_id_keep hkeep, ← htid]
                exact List.mem_map_of_mem Team.id htm
              obtain ⟨u, hu, huid⟩ := List.mem_map.mp hmm
              exact ⟨u, hu, huid⟩
            · rw [hfo, hteams]
              intro u hu
              rcases mem_updateFirst_nodup hnd hu with ⟨hum, _⟩ | ⟨t, _, _, hueq⟩
              · exact hteam u hum
              · subst hueq
                refine ⟨by omega, ?_, ?_, hxgr⟩
                · rw [hxfin, hxpos]
                  simp only [Option.isSome_none, Bool.false_eq_true, false_iff]
                  omega
                · rw [hxfin, hxid, ← hid]
                  simp only [Option.isSome_none, Bool.false_eq_true, false_iff]
                  exact hnotfo
          · -- capture happens
            push_neg at hnc
            obtain ⟨hz0, hL⟩ := hnc
            obtain ⟨_, hteams, hfo⟩ :=
              throw_yut_capture g now tid yut team ht hf hch (by omega) (by omega) hL
            have hcapfn_id : ∀ t : Team,
                ((if capturedBy (movedTeam team yut) t then
                    { t with position := checkpointOf t.position } else t) : Team).id
                  = t.id := by
              intro t
              split_ifs <;> rfl
            have hmapids : ((g.teams.map fun t =>
                if capturedBy (movedTeam team yut) t then
                  { t with position := checkpointOf t.position } else t).map Team.id) =
                g.teams.map Team.id := by
              rw [List.map_map]
              exact List.map_congr_left fun t _ => hcapfn_id t
            have hndm : ((g.teams.map fun t =>
                if capturedBy (movedTeam team yut) t then
                  { t with position := checkpointOf t.position } else t).map Team.id).Nodup := by
              rw [hmapids]; exact hnd
            have hxid : (extraTeam (captureActor (movedTeam team yut)
                (capturedOf g (movedTeam team yut)).length) yut).id = tid := by
              rw [extraTeam_id, captureActor_id, movedTeam_id, hid]
            have hxfin : (extraTeam (captureActor (movedTeam team yut)
                (capturedOf g (movedTeam team yut)).length) yut).finished_at = none := by
              rw [extraTeam_finished_at, captureActor_finished_at, movedTeam_finished_at, hf]
            have hxpos : (extraTeam (captureActor (movedTeam team yut)
                (capturedOf g (movedTeam team yut)).length) yut).position =
                (movedTeam team yut).position := by
              rw [extraTeam_position, captureActor_position]
            have hxgr : (extraTeam (captureActor (movedTeam team yut)
                (capturedOf g (movedTeam team yut)).length) yut).throw_granted_by_score =
                (extraTeam (captureActor (movedTeam team yut)
                  (capturedOf g (movedTeam team yut)).length) yut).score /
                  SCORE_PER_THROW := by
              rw [extraTeam_granted, extraTeam_score]
              apply captureActor_granted
              rw [movedTeam_granted, movedTeam_score, hgr]
              exact Nat.div_le_div_right (by omega)
            have hkeep : ∀ t : Team, t.id = tid →
                ((fun _ => extraTeam (captureActor (movedTeam team yut)
                  (capturedOf g (movedTeam team yut)).length) yut) t).id = t.id := by
              intro t htid
              rw [hxid, htid]
            refine ⟨?_, ?_, ?_, ?_⟩
            · rw [hteams, updateFirst_map_id_keep hkeep, hmapids]
              exact hnd
            · rw [hfo]; exact hfnd
            · rw [hfo, hteams]
              intro fid hfid
              obtain ⟨t, htm, htid⟩ := hsub fid hfid
              have hmm : fid ∈ (updateFirst (g.teams.map fun t =>
                  if capturedBy (movedTeam team yut) t then
                    { t with position := checkpointOf t.position } else t) tid
                  (fun _ => extraTeam (captureActor (movedTeam team yut)
                    (capturedOf g (movedTeam team yut)).length) yut)).map Team.id := by
                rw [updateFirst_map_id_keep hkeep, hmapids, ← htid]
                exact List.mem_map_of_mem Team.id htm
              obtain ⟨u, hu, huid⟩ := List.mem_map.mp hmm
              exact ⟨u, hu, huid⟩
            · rw [hfo, hteams]
              intro u hu
              rcases mem_updateFirst_nodup hndm hu with ⟨hum, hune⟩ | ⟨t, _, _, hueq⟩
              · obtain ⟨t, htm, hteq⟩ := List.mem_map.mp hum
                by_cases hct : capturedBy (movedTeam team yut) t
                · rw [if_pos hct] at hteq
                  subst hteq
                  obtain ⟨hcne, hcfin, hcpos⟩ := hct
                  obtain ⟨hp1, hi1, hi2, hg1⟩ := hteam t htm
                  have hckle : checkpointOf t.position ≤ t.position :=
                    Nat.div_mul_le_self ..
                  refine ⟨by simpa using by omega, ?_, ?_, by simpa using hg1⟩
                  · show (Option.isSome t.finished_at = true) ↔ _
                    rw [hcfin]
                    simp only [Option.isSome_none, Bool.false_eq_true, false_iff]
                    show ¬ checkpointOf t.position = FINISH_POS
                    have : (movedTeam team yut).position < FINISH_POS := by omega
                    omega
                  · show (Option.isSome t.finished_at = true) ↔ _
                    rw [hcfin]
                    simp only [Option.isSome_none, Bool.false_eq_true, false_iff]
                    show ¬ t.id ∈ g.finish_order
                    intro hmem2
                    have := hi2.mpr hmem2
                    rw [hcfin] at this
                    simp at this
                · rw [if_neg hct] at hteq
                  subst hteq
                  exact hteam t htm
              · subst hueq
                refine ⟨by omega, ?_, ?_, hxgr⟩
                · rw [hxfin, hxpos]
                  simp only [Option.isSome_none, Bool.false_eq_true, false_iff]
                  omega
                · rw [hxfin, hxid, ← hid]
                  simp only [Option.isSome_none, Bool.false_eq_true, false_iff]
                  exact hnotfo

end BoardB

namespace BoardB

theorem inv_step {g g2 : Game} (hinv : Inv g) (hs : Step g g2) : Inv g2 := by
  cases hs with
  | add_team now newId rawName hfresh => exact inv_add_team g now newId rawName hfresh hinv
  | record_activity now tid difficulty category pc title =>
    exact inv_record g now tid difficulty category pc title hinv
  | throw_yut now tid yut hy => exact inv_throw g now tid yut hinv
  | reset => exact inv_reset g

theorem reachable_inv {g : Game} (hr : Reachable g) : Inv g := by
  induction hr with
  | init => exact inv_init
  | step _ hs ih => exact inv_step ih hs

end BoardB

namespace BoardB

theorem keyLeB_trans (a b c : Nat × Int × Int × Int)
    (hab : keyLeB a b) (hbc : keyLeB b c) : keyLeB a c := by
  simp only [keyLeB, decide_eq_true_eq] at hab hbc ⊢
  omega

theorem keyLeB_total (a b : Nat × Int × Int × Int) : keyLeB a b || keyLeB b a := by
  simp only [keyLeB, Bool.or_eq_true, decide_eq_true_eq]
  omega

theorem Game.sorted_teams_perm (g : Game) : g.sorted_teams.Perm g.teams :=
  List.mergeSort_perm ..

theorem Game.sorted_teams_sorted (g : Game) :
    g.sorted_teams.Pairwise
      (fun a b => keyLeB (sortKeyB g.finish_order a) (sortKeyB g.finish_order b)) := by
  unfold Game.sorted_teams
  exact List.sorted_mergeSort
    (fun a b c hab hbc => keyLeB_trans (sortKeyB g.finish_order a)
      (sortKeyB g.finish_order b) (sortKeyB g.finish_order c) hab hbc)
    (fun a b => keyLeB_total (sortKeyB g.finish_order a) (sortKeyB g.finish_order b))
    g.teams

/-- In variant B's ranking, once an unfinished team appears, every later team
is unfinished: finished teams always come first. -/
theorem Game.sorted_teams_finished_first (g : Game)
    (hlen : g.finish_order.length ≤ 10 ^ 9) :
    g.sorted_teams.Pairwise
      (fun a b => a.id ∉ g.finish_order → b.id ∉ g.finish_order) := by
  refine (Game.sorted_teams_sorted g).imp ?_
  intro a b hle ha hb
  simp only [keyLeB, decide_eq_true_eq, sortKeyB, if_neg ha, if_pos hb] at hle
  have hidx : g.finish_order.indexOf b.id < g.finish_order.length :=
    List.indexOf_lt_length.mpr hb
  omega

end BoardB

namespace BoardA

theorem keyLeA_trans (a b c : Int × Int × String)
    (hab : keyLeA a b) (hbc : keyLeA b c) : keyLeA a c := by
  simp only [keyLeA, decide_eq_true_eq] at hab hbc ⊢
  rcases hab with h | ⟨e1, hab⟩
  · rcases hbc with h2 | ⟨e2, _⟩
    · exact Or.inl (h.trans h2)
    · exact Or.inl (e2 ▸ h)
  · rcases hbc with h2 | ⟨e2, hbc⟩
    · exact Or.inl (e1 ▸ h2)
    · refine Or.inr ⟨e1.trans e2, ?_⟩
      rcases hab with h | ⟨f1, hab⟩
      · rcases hbc with h2 | ⟨f2, _⟩
        · exact Or.inl (h.trans h2)
        · exact Or.inl (f2 ▸ h)
      · rcases hbc with h2 | ⟨f2, hbc⟩
        · exact Or.inl (f1 ▸ h2)
        · refine Or.inr ⟨f1.trans f2, ?_⟩
          rcases hab with h | h
          · rcases hbc with h2 | h2
            · exact Or.inl (h.trans h2)
            · exact Or.inl (h2 ▸ h)
          · rcases hbc with h2 | h2
            · exact Or.inl (h ▸ h2)
            · exact Or.inr (h.trans h2)

theorem keyLeA_total (a b : Int × Int × String) : keyLeA a b || keyLeA b a := by
  simp only [keyLeA, Bool.or_eq_true, decide_eq_true_eq]
  rcases lt_trichotomy a.1 b.1 with h | h | h
  · exact Or.inl (Or.inl h)
  · rcases lt_trichotomy a.2.1 b.2.1 with h2 | h2 | h2
    · exact Or.inl (Or.inr ⟨h, Or.inl h2⟩)
    · rcases lt_trichotomy a.2.2 b.2.2 with h3 | h3 | h3
      · exact Or.inl (Or.inr ⟨h, Or.inr ⟨h2, Or.inl h3⟩⟩)
      · exact Or.inl (Or.inr ⟨h, Or.inr ⟨h2, Or.inr h3⟩⟩)
      · exact Or.inr (Or.inr ⟨h.symm, Or.inr ⟨h2.symm, Or.inl h3⟩⟩)
    · exact Or.inr (Or.inr ⟨h.symm, Or.inl h2⟩)
  · exact Or.inr (Or.inl h)

theorem Game.sorted_teams_perm_A (g : Game) : g.sorted_teams.Perm g.teams :=
  List.mergeSort_perm ..

theorem Game.sorted_teams_sorted_A (g : Game) :
    g.sorted_teams.Pairwise (fun a b => keyLeA (sortKeyA a) (sortKeyA b)) := by
  unfold Game.sorted_teams
  exact List.sorted_mergeSort
    (fun a b c hab hbc => keyLeA_trans (sortKeyA a) (sortKeyA b) (sortKeyA c) hab hbc)
    (fun a b => keyLeA_total (sortKeyA a) (sortKeyA b))
    g.teams

end BoardA

namespace BoardA

theorem lineStep_id_A (p : Nat × Team) (c : String) : (lineStep p c).2.id = p.2.id := by
  obtain ⟨b, u⟩ := p
  simp only [lineStep]
  split_ifs <;> rfl

theorem lineStep_name_A (p : Nat × Team) (c : String) : (lineStep p c).2.name = p.2.name := by
  obtain ⟨b, u⟩ := p
  simp only [lineStep]
  split_ifs <;> rfl

theorem lineStep_score_A (p : Nat × Team) (c : String) : (lineStep p c).2.score = p.2.score := by
  obtain ⟨b, u⟩ := p
  simp only [lineStep]
  split_ifs <;> rfl

theorem lineStep_mission_count_A (p : Nat × Team) (c : String) :
    (lineStep p c).2.mission_count = p.2.mission_count := by
  obtain ⟨b, u⟩ := p
  simp only [lineStep]
  split_ifs <;> rfl

theorem lineStep_category_count_A (p : Nat × Team) (c : String) :
    (lineStep p c).2.category_count = p.2.category_count := by
  obtain ⟨b, u⟩ := p
  simp only [lineStep]
  split_ifs <;> rfl

theorem compute_bonus_eq_A (t : Team) :
    compute_bonus t =
      lineStep (lineStep (lineStep (lineStep
        (if (BoardB.CATEGORIES.all fun c => 0 < t.category_count.get c) ∧
            t.set_bonus_taken = 0 then
          (BoardB.SET_BONUS_POINTS, { t with set_bonus_taken := 1 })
        else (0, t)) "talk") "teamplay") "help") "challenge" := by
  unfold compute_bonus
  simp only [BoardB.CATEGORIES, List.foldl]

theorem cb_id_A (t : Team) : (compute_bonus t).2.id = t.id := by
  rw [compute_bonus_eq_A]
  simp only [lineStep_id_A]
  split_ifs <;> rfl

theorem cb_score_A (t : Team) : (compute_bonus t).2.score = t.score := by
  rw [compute_bonus_eq_A]
  simp only [lineStep_score_A]
  split_ifs <;> rfl

theorem cb_mission_count_A (t : Team) : (compute_bonus t).2.mission_count = t.mission_count := by
  rw [compute_bonus_eq_A]
  simp only [lineStep_mission_count_A]
  split_ifs <;> rfl

theorem cb_category_count_A (t : Team) :
    (compute_bonus t).2.category_count = t.category_count := by
  rw [compute_bonus_eq_A]
  simp only [lineStep_category_count_A]
  split_ifs <;> rfl

/-- The counter-bumped team variant A's `record_activity` hands to
`compute_bonus`. -/
def bumpedTeam (t0 : Team) (dp : Nat) (category : String) (pc : Int) : Team :=
  { t0 with
      score := t0.score + BoardB.activityEarned dp pc
      mission_count := t0.mission_count + 1
      category_count :=
        t0.category_count.set category (t0.category_count.get category + 1) }

/-- The team state a successful variant-A `record_activity` writes back. -/
def activityTeam (t0 : Team) (dp : Nat) (category : String) (pc : Int) : Team :=
  let bt := compute_bonus (bumpedTeam t0 dp category pc)
  if 0 < bt.1 then { bt.2 with score := bt.2.score + bt.1 } else bt.2

theorem record_activity_success_A (g : Game) (now tid difficulty category : String)
    (pc : Int) (title : String) (t0 : Team) (dp : Nat)
    (ht : g.find_team tid = some t0)
    (hd : BoardB.DIFFICULTY_POINTS difficulty = some dp)
    (hc : category ∈ BoardB.CATEGORIES)
    (hpc : 1 ≤ pc) :
    (g.record_activity now tid difficulty category pc title).1 = true ∧
    (g.record_activity now tid difficulty category pc title).2.1 = "활동이 반영되었습니다." ∧
    (g.record_activity now tid difficulty category pc title).2.2.teams =
      updateFirst g.teams tid (fun _ => activityTeam t0 dp category pc) := by
  have hnc : ¬ category ∉ BoardB.CATEGORIES := fun h => h hc
  have hnpc : ¬ pc < 1 := by omega
  unfold Game.record_activity
  rw [ht, hd]
  simp only [hnc, if_false, hnpc, if_true, Game.add_log,
    activityTeam, bumpedTeam, BoardB.activityEarned]
  exact ⟨trivial, trivial, trivial⟩

theorem activityTeam_id_A (t0 : Team) (dp : Nat) (category : String) (pc : Int) :
    (activityTeam t0 dp category pc).id = t0.id := by
  simp only [activityTeam]
  split_ifs <;> simp [cb_id_A, bumpedTeam]

theorem activityTeam_mission_count_A (t0 : Team) (dp : Nat) (category : String) (pc : Int) :
    (activityTeam t0 dp category pc).mission_count = t0.mission_count + 1 := by
  simp only [activityTeam]
  split_ifs <;> simp [cb_mission_count_A, bumpedTeam]

theorem activityTeam_category_count_A (t0 : Team) (dp : Nat) (category : String) (pc : Int) :
    (activityTeam t0 dp category pc).category_count =
      t0.category_count.set category (t0.category_count.get category + 1) := by
  simp only [activityTeam]
  split_ifs <;> simp [cb_category_count_A, bumpedTeam]

theorem activityTeam_score_A (t0 : Team) (dp : Nat) (category : String) (pc : Int) :
    (activityTeam t0 dp category pc).score =
      t0.score + BoardB.activityEarned dp pc +
        (compute_bonus (bumpedTeam t0 dp category pc)).1 := by
  simp only [activityTeam]
  split_ifs with h
  · simp [cb_score_A, bumpedTeam]
  · have hz : (compute_bonus (bumpedTeam t0 dp category pc)).1 = 0 := by omega
    rw [cb_score_A, hz]
    simp [bumpedTeam]

theorem findTeam_id_A {ts : List Team} {tid : String} {t : Team}
    (h : findTeam ts tid = some t) : t.id = tid := by
  induction ts with
  | nil => simp [findTeam] at h
  | cons u us ih =>
    by_cases hu : u.id = tid
    · simp [findTeam, hu] at h; rw [← h]; exact hu
    · simp [findTeam, hu] at h; exact ih h

theorem findTeam_updateFirst_keep_A {ts : List Team} {tid : String} {f : Team → Team}
    (hf : ∀ t, t.id = tid → (f t).id = tid) :
    findTeam (updateFirst ts tid f) tid = (findTeam ts tid).map f := by
  induction ts with
  | nil => rfl
  | cons u us ih =>
    by_cases hu : u.id = tid
    · simp [updateFirst, findTeam, hu, hf u hu]
    · simp [updateFirst, findTeam, hu, ih]

end BoardA

namespace BoardA

/-- Variant A's set-bonus condition. -/
def setCond (t : Team) : Prop :=
  (∀ c ∈ BoardB.CATEGORIES, 0 < t.category_count.get c) ∧ t.set_bonus_taken = 0

instance (t : Team) : Decidable (setCond t) := by
  unfold setCond; infer_instance

/-- Variant A's per-category line bonus contribution. -/
def lineGain (t : Team) (c : String) : Nat :=
  if t.line_bonus_taken.get c < t.category_count.get c / BoardB.LINE_THRESHOLD then
    (t.category_count.get c / BoardB.LINE_THRESHOLD - t.line_bonus_taken.get c) *
      BoardB.LINE_BONUS_POINTS
  else 0

theorem lineStep_fst_A (p : Nat × Team) (c : String) :
    (lineStep p c).1 = p.1 + lineGain p.2 c := by
  obtain ⟨b, u⟩ := p
  simp only [lineStep, lineGain]
  split_ifs <;> simp

theorem lineStep_set_bonus_taken_A (p : Nat × Team) (c : String) :
    (lineStep p c).2.set_bonus_taken = p.2.set_bonus_taken := by
  obtain ⟨b, u⟩ := p
  simp only [lineStep]
  split_ifs <;> rfl

theorem lineStep_taken_self_A (p : Nat × Team) (c : String) :
    (lineStep p c).2.line_bonus_taken.get c =
      max (p.2.category_count.get c / BoardB.LINE_THRESHOLD)
        (p.2.line_bonus_taken.get c) := by
  obtain ⟨b, u⟩ := p
  simp only [lineStep]
  split_ifs with h
  · simp only [BoardB.CatMap.get_set_self]
    omega
  · simp only
    omega

theorem lineStep_taken_ne_A (p : Nat × Team) {c c' : String}
    (hc : c ∈ BoardB.CATEGORIES) (hc' : c' ∈ BoardB.CATEGORIES) (hne : c ≠ c') :
    (lineStep p c).2.line_bonus_taken.get c' = p.2.line_bonus_taken.get c' := by
  obtain ⟨b, u⟩ := p
  simp only [lineStep]
  split_ifs with h
  · simp only [BoardB.CatMap.get_set_ne u.line_bonus_taken _ hc hc' hne]
  · rfl

theorem lineGain_congr_A {u v : Team} (c : String)
    (h1 : u.category_count.get c = v.category_count.get c)
    (h2 : u.line_bonus_taken.get c = v.line_bonus_taken.get c) :
    lineGain u c = lineGain v c := by
  unfold lineGain
  rw [h1, h2]

theorem compute_bonus_spec_A (t : Team) :
    (compute_bonus t).1 =
      (if setCond t then BoardB.SET_BONUS_POINTS else 0) +
        (lineGain t "talk" + lineGain t "teamplay" + lineGain t "help" +
          lineGain t "challenge") ∧
    (compute_bonus t).2.set_bonus_taken =
      (if setCond t then 1 else t.set_bonus_taken) ∧
    (∀ c ∈ BoardB.CATEGORIES,
      (compute_bonus t).2.line_bonus_taken.get c =
        max (t.category_count.get c / BoardB.LINE_THRESHOLD)
          (t.line_bonus_taken.get c)) := by
  have hcond : ((BoardB.CATEGORIES.all fun c => 0 < t.category_count.get c) ∧
      t.set_bonus_taken = 0) ↔ setCond t := by
    unfold setCond
    simp [List.all_eq_true]
  have mt : "talk" ∈ BoardB.CATEGORIES := by decide
  have mp : "teamplay" ∈ BoardB.CATEGORIES := by decide
  have mh : "help" ∈ BoardB.CATEGORIES := by decide
  have mc : "challenge" ∈ BoardB.CATEGORIES := by decide
  rw [compute_bonus_eq_A]
  set s0 := (if (BoardB.CATEGORIES.all fun c => 0 < t.category_count.get c) ∧
      t.set_bonus_taken = 0 then
    (BoardB.SET_BONUS_POINTS, { t with set_bonus_taken := 1 })
  else ((0 : Nat), t)) with hs0
  have h0b : s0.1 = (if setCond t then BoardB.SET_BONUS_POINTS else 0) := by
    rw [hs0]
    by_cases h : setCond t
    · rw [if_pos (hcond.mpr h), if_pos h]
    · rw [if_neg (fun hx => h (hcond.mp hx)), if_neg h]
  have h0sb : s0.2.set_bonus_taken = (if setCond t then 1 else t.set_bonus_taken) := by
    rw [hs0]
    by_cases h : setCond t
    · rw [if_pos (hcond.mpr h), if_pos h]
    · rw [if_neg (fun hx => h (hcond.mp hx)), if_neg h]
  have h0cc : s0.2.category_count = t.category_count := by
    rw [hs0]; split_ifs <;> rfl
  have h0lb : s0.2.line_bonus_taken = t.line_bonus_taken := by
    rw [hs0]; split_ifs <;> rfl
  set s1 := lineStep s0 "talk" with hs1
  set s2 := lineStep s1 "teamplay" with hs2
  set s3 := lineStep s2 "help" with hs3
  have h1cc : s1.2.category_count = t.category_count := by
    rw [hs1, lineStep_category_count_A, h0cc]
  have h2cc : s2.2.category_count = t.category_count := by
    rw [hs2, lineStep_category_count_A, h1cc]
  have h3cc : s3.2.category_count = t.category_count := by
    rw [hs3, lineStep_category_count_A, h2cc]
  have h1sb : s1.2.set_bonus_taken = s0.2.set_bonus_taken := lineStep_set_bonus_taken_A ..
  have h2sb : s2.2.set_bonus_taken = s0.2.set_bonus_taken := by
    rw [hs2, lineStep_set_bonus_taken_A, h1sb]
  have h3sb : s3.2.set_bonus_taken = s0.2.set_bonus_taken := by
    rw [hs3, lineStep_set_bonus_taken_A, h2sb]
  have h1p : s1.2.line_bonus_taken.get "teamplay" = t.line_bonus_taken.get "teamplay" := by
    rw [hs1, lineStep_taken_ne_A _ mt mp (by decide), h0lb]
  have h1h : s1.2.line_bonus_taken.get "help" = t.line_bonus_taken.get "help" := by
    rw [hs1, lineStep_taken_ne_A _ mt mh (by decide), h0lb]
  have h1c : s1.2.line_bonus_taken.get "challenge" = t.line_bonus_taken.get "challenge" := by
    rw [hs1, lineStep_taken_ne_A _ mt mc (by decide), h0lb]
  have h2h : s2.2.line_bonus_taken.get "help" = t.line_bonus_taken.get "help" := by
    rw [hs2, lineStep_taken_ne_A _ mp mh (by decide), h1h]
  have h2c : s2.2.line_bonus_taken.get "challenge" = t.line_bonus_taken.get "challenge" := by
    rw [hs2, lineStep_taken_ne_A _ mp mc (by decide), h1c]
  have h3c : s3.2.line_bonus_taken.get "challenge" = t.line_bonus_taken.get "challenge" := by
    rw [hs3, lineStep_taken_ne_A _ mh mc (by decide), h2c]
  have g1 : s1.1 = s0.1 + lineGain t "talk" := by
    rw [hs1, lineStep_fst_A]
    congr 1
    exact lineGain_congr_A _ (by rw [h0cc]) (by rw [h0lb])
  have g2 : s2.1 = s1.1 + lineGain t "teamplay" := by
    rw [hs2, lineStep_fst_A]
    congr 1
    exact lineGain_congr_A _ (by rw [h1cc]) (by rw [h1p])
  have g3 : s3.1 = s2.1 + lineGain t "help" := by
    rw [hs3, lineStep_fst_A]
    congr 1
    exact lineGain_congr_A _ (by rw [h2cc]) (by rw [h2h])
  have g4 : (lineStep s3 "challenge").1 = s3.1 + lineGain t "challenge" := by
    rw [lineStep_fst_A]
    congr 1
    exact lineGain_congr_A _ (by rw [h3cc]) (by rw [h3c])
  refine ⟨?_, ?_, ?_⟩
  · rw [g4, g3, g2, g1, h0b]
    ring
  · rw [lineStep_set_bonus_taken_A, h3sb, h0sb]
  · have ftalk : (lineStep s3 "challenge").2.line_bonus_taken.get "talk" =
        max (t.category_count.get "talk" / BoardB.LINE_THRESHOLD)
          (t.line_bonus_taken.get "talk") := by
      rw [lineStep_taken_ne_A _ mc mt (by decide), hs3, lineStep_taken_ne_A _ mh mt (by decide),
        hs2, lineStep_taken_ne_A _ mp mt (by decide), hs1, lineStep_taken_self_A, h0cc, h0lb]
    have fteamplay : (lineStep s3 "challenge").2.line_bonus_taken.get "teamplay" =
        max (t.category_count.get "teamplay" / BoardB.LINE_THRESHOLD)
          (t.line_bonus_taken.get "teamplay") := by
      rw [lineStep_taken_ne_A _ mc mp (by decide), hs3, lineStep_taken_ne_A _ mh mp (by decide),
        hs2, lineStep_taken_self_A, h1cc, h1p]
    have fhelp : (lineStep s3 "challenge").2.line_bonus_taken.get "help" =
        max (t.category_count.get "help" / BoardB.LINE_THRESHOLD)
          (t.line_bonus_taken.get "help") := by
      rw [lineStep_taken_ne_A _ mc mh (by decide), hs3, lineStep_taken_self_A, h2cc, h2h]
    have fchallenge : (lineStep s3 "challenge").2.line_bonus_taken.get "challenge" =
        max (t.category_count.get "challenge" / BoardB.LINE_THRESHOLD)
          (t.line_bonus_taken.get "challenge") := by
      rw [lineStep_taken_self_A, h3cc, h3c]
    intro c hcm
    simp only [BoardB.CATEGORIES, List.mem_cons, List.not_mem_nil, or_false] at hcm
    rcases hcm with rfl | rfl | rfl | rfl
    · exact ftalk
    · exact fteamplay
    · exact fhelp
    · exact fchallenge

end BoardA

namespace BoardB

/-- Validation outcome of `add_team`: fails exactly on an empty trimmed name
or a duplicate name, leaving the state unchanged. -/
theorem add_team_fail (g : Game) (now newId rawName : String) :
    ((g.add_team now newId rawName).1 = false ↔
      (rawName.trim = "" ∨ ∃ t ∈ g.teams, t.name = rawName.trim)) ∧
    ((g.add_team now newId rawName).1 = false →
      (g.add_team now newId rawName).2.2 = g ∧
      (g.add_team now newId rawName).2.1 ≠ "") := by
  simp only [Game.add_team]
  split_ifs with h1 h2
  · simp [h1]
  · simp only [List.any_eq_true, decide_eq_true_eq] at h2
    simp [h1, h2]
  · simp only [List.any_eq_true, decide_eq_true_eq] at h2
    simp [h1, h2]

/-- The failure condition of `throw_yut` as a single equivalence. -/
theorem throw_yut_fail_iff (g : Game) (now tid : String) (yut : YutOutcome) :
    ((g.throw_yut now tid yut).1 = false ↔
      (g.find_team tid = none ∨ ∃ t, g.find_team tid = some t ∧
        (t.finished_at.isSome ∨ t.throw_chance = 0))) ∧
    ((g.throw_yut now tid yut).1 = false →
      (g.throw_yut now tid yut).2.2 = g ∧ (g.throw_yut now tid yut).2.1 ≠ "") := by
  obtain ⟨hnone, hfin, hch⟩ := throw_yut_fail_cases g now tid yut
  cases ht : g.find_team tid with
  | none =>
    rw [hnone ht]
    simp
  | some team =>
    by_cases hisfin : team.finished_at.isSome
    · rw [hfin team ht hisfin]
      exact ⟨⟨fun _ => Or.inr ⟨team, rfl, Or.inl hisfin⟩, fun _ => rfl⟩,
        fun _ => ⟨rfl, by simp⟩⟩
    · have hf : team.finished_at = none := Option.not_isSome_iff_eq_none.mp hisfin
      by_cases hzero : team.throw_chance = 0
      · rw [hch team ht hf hzero]
        exact ⟨⟨fun _ => Or.inr ⟨team, rfl, Or.inr hzero⟩, fun _ => rfl⟩,
          fun _ => ⟨rfl, by simp⟩⟩
      · have hok : (g.throw_yut now tid yut).1 = true :=
          throw_yut_ok g now tid yut team ht hf hzero
        rw [hok]
        simp only [Bool.true_eq_false, false_iff, false_implies, and_true]
        push_neg
        refine ⟨by simp, ?_⟩
        intro t hteq
        cases hteq
        exact ⟨hisfin, hzero⟩

end BoardB

/-- C1: For every existing team and every valid input (difficulty in the
3-entry table, category among the 4 fixed categories, participantCount ≥ 1),
`record_activity` — in both variants — adds
`earned = 10 + difficultyPoints + max(0, participantCount − 2) * 20` to the
team's score (plus the category bonus computed on the already-incremented
counters), increments `mission_count` by 1 and `category_count[category]`
by 1; the bonus term is evaluated on the bumped team, so the same call can
trigger the set/line bonus. -/
theorem claim_C1 (gB : BoardB.Game) (gA : BoardA.Game)
    (now tidB tidA difficulty category : String) (pc : Int) (title : String)
    (tB : BoardB.Team) (tA : BoardA.Team) (dp : Nat)
    (htB : gB.find_team tidB = some tB)
    (htA : gA.find_team tidA = some tA)
    (hd : BoardB.DIFFICULTY_POINTS difficulty = some dp)
    (hc : category ∈ BoardB.CATEGORIES)
    (hpc : 1 ≤ pc) :
    ((gB.record_activity now tidB difficulty category pc title).1 = true ∧
      ∃ t3, (gB.record_activity now tidB difficulty category pc title).2.2.find_team tidB =
          some t3 ∧
        t3.score = tB.score +
          (BoardB.BASE_POINTS + dp +
            (max 0 (pc - 2)).toNat * BoardB.TEAM_MEMBER_BONUS_POINTS) +
          (BoardB.compute_bonus (BoardB.bumpedTeam tB dp category pc)).1 ∧
        t3.mission_count = tB.mission_count + 1 ∧
        t3.category_count.get category = tB.category_count.get category + 1) ∧
    ((gA.record_activity now tidA difficulty category pc title).1 = true ∧
      ∃ t3, (gA.record_activity now tidA difficulty category pc title).2.2.find_team tidA =
          some t3 ∧
        t3.score = tA.score +
          (BoardB.BASE_POINTS + dp +
            (max 0 (pc - 2)).toNat * BoardB.TEAM_MEMBER_BONUS_POINTS) +
          (BoardA.compute_bonus (BoardA.bumpedTeam tA dp category pc)).1 ∧
        t3.mission_count = tA.mission_count + 1 ∧
        t3.category_count.get category = tA.category_count.get category + 1) := by
  constructor
  · obtain ⟨hok, _, hteams, _, _⟩ :=
      BoardB.record_activity_success gB now tidB difficulty category pc title tB dp
        htB hd hc hpc
    have hidB : tB.id = tidB := BoardB.findTeam_id htB
    have hkeep : ∀ t : BoardB.Team, t.id = tidB →
        ((fun _ => BoardB.activityTeam tB dp category pc) t).id = tidB := by
      intro t _
      rw [BoardB.activityTeam_id, hidB]
    refine ⟨hok, BoardB.activityTeam tB dp category pc, ?_, ?_, ?_, ?_⟩
    · have htB' : BoardB.findTeam gB.teams tidB = some tB := htB
      show BoardB.findTeam _ tidB = _
      rw [hteams, BoardB.findTeam_updateFirst_keep hkeep, htB']
      rfl
    · rw [BoardB.activityTeam_score]
      rfl
    · exact BoardB.activityTeam_mission_count ..
    · rw [BoardB.activityTeam_category_count, BoardB.CatMap.get_set_self]
  · obtain ⟨hok, _, hteams⟩ :=
      BoardA.record_activity_success_A gA now tidA difficulty category pc title tA dp
        htA hd hc hpc
    have hidA : tA.id = tidA := BoardA.findTeam_id_A htA
    have hkeep : ∀ t : BoardA.Team, t.id = tidA →
        ((fun _ => BoardA.activityTeam tA dp category pc) t).id = tidA := by
      intro t _
      rw [BoardA.activityTeam_id_A, hidA]
    refine ⟨hok, BoardA.activityTeam tA dp category pc, ?_, ?_, ?_, ?_⟩
    · have htA' : BoardA.findTeam gA.teams tidA = some tA := htA
      show BoardA.findTeam _ tidA = _
      rw [hteams, BoardA.findTeam_updateFirst_keep_A hkeep, htA']
      rfl
    · rw [BoardA.activityTeam_score_A]
      rfl
    · exact BoardA.activityTeam_mission_count_A ..
    · rw [BoardA.activityTeam_category_count_A, BoardB.CatMap.get_set_self]

/-- Witness for C1: a fresh team, `hard` difficulty, `talk` category,
3 participants: earned = 10 + 30 + 20 = 60, score 60, mission_count 1,
category_count[talk] = 1. -/
theorem claim_C1_witness :
    ((({ teams := [{ id := "t1", name := "A" }] } : BoardB.Game).record_activity
        "now" "t1" "hard" "talk" 3 "").1 = true ∧
      ∃ t3, (({ teams := [{ id := "t1", name := "A" }] } : BoardB.Game).record_activity
          "now" "t1" "hard" "talk" 3 "").2.2.find_team "t1" = some t3 ∧
        t3.score = ({ id := "t1", name := "A" } : BoardB.Team).score +
          (BoardB.BASE_POINTS + 30 +
            (max 0 ((3 : Int) - 2)).toNat * BoardB.TEAM_MEMBER_BONUS_POINTS) +
          (BoardB.compute_bonus
            (BoardB.bumpedTeam { id := "t1", name := "A" } 30 "talk" 3)).1 ∧
        t3.mission_count = ({ id := "t1", name := "A" } : BoardB.Team).mission_count + 1 ∧
        t3.category_count.get "talk" =
          ({ id := "t1", name := "A" } : BoardB.Team).category_count.get "talk" + 1) ∧
    ((({ teams := [{ id := "t1", name := "A" }] } : BoardA.Game).record_activity
        "now" "t1" "hard" "talk" 3 "").1 = true ∧
      ∃ t3, (({ teams := [{ id := "t1", name := "A" }] } : BoardA.Game).record_activity
          "now" "t1" "hard" "talk" 3 "").2.2.find_team "t1" = some t3 ∧
        t3.score = ({ id := "t1", name := "A" } : BoardA.Team).score +
          (BoardB.BASE_POINTS + 30 +
            (max 0 ((3 : Int) - 2)).toNat * BoardB.TEAM_MEMBER_BONUS_POINTS) +
          (BoardA.compute_bonus
            (BoardA.bumpedTeam { id := "t1", name := "A" } 30 "talk" 3)).1 ∧
        t3.mission_count = ({ id := "t1", name := "A" } : BoardA.Team).mission_count + 1 ∧
        t3.category_count.get "talk" =
          ({ id := "t1", name := "A" } : BoardA.Team).category_count.get "talk" + 1) :=
  claim_C1 { teams := [{ id := "t1", name := "A" }] }
    { teams := [{ id := "t1", name := "A" }] }
    "now" "t1" "t1" "hard" "talk" 3 ""
    { id := "t1", name := "A" } { id := "t1", name := "A" } 30
    (by decide) (by decide) (by decide) (by decide) (by decide)

/-- C2: in both variants, one bonus evaluation adds the 40-point set bonus
exactly when all 4 category counts are positive and the latch is still 0
(setting the latch to 1 so it is never re-granted), and, independently per
category, adds `(tier − line_bonus_taken[c]) * 25` exactly when
`tier = floor(count[c]/3)` exceeds `line_bonus_taken[c]`, ratcheting
`line_bonus_taken[c]` up to the tier — so the 3rd and 6th activities in one
category each grant 25 points and the 4th and 5th grant none. -/
theorem claim_C2 (tB : BoardB.Team) (tA : BoardA.Team) :
    ((BoardB.compute_bonus tB).1 =
      (if BoardB.setCond tB then BoardB.SET_BONUS_POINTS else 0) +
        (BoardB.lineGain tB "talk" + BoardB.lineGain tB "teamplay" +
          BoardB.lineGain tB "help" + BoardB.lineGain tB "challenge") ∧
     (BoardB.compute_bonus tB).2.set_bonus_taken =
      (if BoardB.setCond tB then 1 else tB.set_bonus_taken) ∧
     (∀ c ∈ BoardB.CATEGORIES,
       (BoardB.compute_bonus tB).2.line_bonus_taken.get c =
         max (tB.category_count.get c / BoardB.LINE_THRESHOLD)
           (tB.line_bonus_taken.get c))) ∧
    ((BoardA.compute_bonus tA).1 =
      (if BoardA.setCond tA then BoardB.SET_BONUS_POINTS else 0) +
        (BoardA.lineGain tA "talk" + BoardA.lineGain tA "teamplay" +
          BoardA.lineGain tA "help" + BoardA.lineGain tA "challenge") ∧
     (BoardA.compute_bonus tA).2.set_bonus_taken =
      (if BoardA.setCond tA then 1 else tA.set_bonus_taken) ∧
     (∀ c ∈ BoardB.CATEGORIES,
       (BoardA.compute_bonus tA).2.line_bonus_taken.get c =
         max (tA.category_count.get c / BoardB.LINE_THRESHOLD)
           (tA.line_bonus_taken.get c))) :=
  ⟨BoardB.compute_bonus_spec tB, BoardA.compute_bonus_spec_A tA⟩

/-- Witness for C2: a team with one activity in every category and 3 in
`talk` earns the 40-point set bonus plus one 25-point line bonus; the 4th
and 5th `talk` activities add nothing, the 6th adds 25 again. -/
theorem claim_C2_witness :
    (BoardB.compute_bonus
      { id := "t", name := "T", category_count := ⟨3, 1, 1, 1⟩ }).1 = 65 ∧
    (BoardB.compute_bonus
      { id := "t", name := "T", category_count := ⟨4, 1, 1, 1⟩,
        set_bonus_taken := 1, line_bonus_taken := ⟨1, 0, 0, 0⟩ }).1 = 0 ∧
    (BoardB.compute_bonus
      { id := "t", name := "T", category_count := ⟨5, 1, 1, 1⟩,
        set_bonus_taken := 1, line_bonus_taken := ⟨1, 0, 0, 0⟩ }).1 = 0 ∧
    (BoardB.compute_bonus
      { id := "t", name := "T", category_count := ⟨6, 1, 1, 1⟩,
        set_bonus_taken := 1, line_bonus_taken := ⟨1, 0, 0, 0⟩ }).1 = 25 ∧
    (BoardA.compute_bonus { id := "t", name := "T", category_count := ⟨3, 0, 0, 0⟩ }).1 = 25 := by
  refine ⟨?_, ?_, ?_, ?_, ?_⟩
  · have h := (claim_C2 ⟨"t", "T", 0, 0, 0, 0, 0, none, ⟨3, 1, 1, 1⟩, 0, BoardB.CatMap.zero⟩
      ⟨"t", "T", 0, 0, BoardB.CatMap.zero, 0, BoardB.CatMap.zero⟩).1.1
    rw [h]
    decide
  · have h := (claim_C2 ⟨"t", "T", 0, 0, 0, 0, 0, none, ⟨4, 1, 1, 1⟩, 1, ⟨1, 0, 0, 0⟩⟩
      ⟨"t", "T", 0, 0, BoardB.CatMap.zero, 0, BoardB.CatMap.zero⟩).1.1
    rw [h]
    decide
  · have h := (claim_C2 ⟨"t", "T", 0, 0, 0, 0, 0, none, ⟨5, 1, 1, 1⟩, 1, ⟨1, 0, 0, 0⟩⟩
      ⟨"t", "T", 0, 0, BoardB.CatMap.zero, 0, BoardB.CatMap.zero⟩).1.1
    rw [h]
    decide
  · have h := (claim_C2 ⟨"t", "T", 0, 0, 0, 0, 0, none, ⟨6, 1, 1, 1⟩, 1, ⟨1, 0, 0, 0⟩⟩
      ⟨"t", "T", 0, 0, BoardB.CatMap.zero, 0, BoardB.CatMap.zero⟩).1.1
    rw [h]
    decide
  · have h := (claim_C2 ⟨"t", "T", 0, 0, 0, 0, 0, none, BoardB.CatMap.zero, 0, BoardB.CatMap.zero⟩
      ⟨"t", "T", 0, 0, ⟨3, 0, 0, 0⟩, 0, BoardB.CatMap.zero⟩).2.1
    rw [h]
    decide

/-- C3: in every reachable variant-B state `throw_granted_by_score` equals
`floor(score / 40)` for every team, and one milestone call on a team whose
latch corresponds to an earlier score `s ≤ score` adds exactly
`floor(score/40) − floor(s/40)` chances (0 when the difference is not
positive), never decreasing `throw_chance` or `throw_granted_by_score`. -/
theorem claim_C3 (g : BoardB.Game) (hr : BoardB.Reachable g) :
    (∀ t ∈ g.teams, t.throw_granted_by_score = t.score / BoardB.SCORE_PER_THROW) ∧
    (∀ (t : BoardB.Team) (s : Nat),
      t.throw_granted_by_score = s / BoardB.SCORE_PER_THROW → s ≤ t.score →
        (BoardB.apply_score_throw_milestone t).1 =
          t.score / BoardB.SCORE_PER_THROW - s / BoardB.SCORE_PER_THROW ∧
        (BoardB.apply_score_throw_milestone t).2.throw_chance =
          t.throw_chance +
            (t.score / BoardB.SCORE_PER_THROW - s / BoardB.SCORE_PER_THROW)) ∧
    (∀ t : BoardB.Team,
      t.throw_chance ≤ (BoardB.apply_score_throw_milestone t).2.throw_chance ∧
      t.throw_granted_by_score ≤
        (BoardB.apply_score_throw_milestone t).2.throw_granted_by_score) := by
  refine ⟨fun t ht => ((BoardB.reachable_inv hr).2.2.2 t ht).2.2.2, ?_, ?_⟩
  · intro t s hs hle
    have h : t.throw_granted_by_score ≤ t.score / BoardB.SCORE_PER_THROW := by
      rw [hs]
      exact Nat.div_le_div_right hle
    obtain ⟨_, h2, h3⟩ := BoardB.apply_score_throw_milestone_granted t h
    rw [h2, h3, hs]
    exact ⟨rfl, rfl⟩
  · intro t
    exact BoardB.apply_score_throw_milestone_mono t

/-- Witness for C3: the empty fresh game is reachable and a team whose score
rose from 35 to 75 with the latch at `floor(35/40) = 0` gains exactly
`floor(75/40) − floor(35/40) = 1` chance. -/
theorem claim_C3_witness :
    (∀ t ∈ (BoardB.Game.init).teams,
      t.throw_granted_by_score = t.score / BoardB.SCORE_PER_THROW) ∧
    (BoardB.apply_score_throw_milestone
      { id := "t", name := "T", score := 75, throw_chance := 2 }).1 = 1 ∧
    (BoardB.apply_score_throw_milestone
      { id := "t", name := "T", score := 75, throw_chance := 2 }).2.throw_chance = 3 := by
  obtain ⟨h1, h2, _⟩ := claim_C3 BoardB.Game.init BoardB.Reachable.init
  obtain ⟨ha, hb⟩ := h2 { id := "t", name := "T", score := 75, throw_chance := 2 } 35
    (by decide) (by decide)
  refine ⟨h1, ?_, ?_⟩
  · rw [ha]
    decide
  · rw [hb]
    decide

/-- C4: every successful `throw_yut` moves the team to
`max(0, position + step)` (a backdo at 0 stays at 0); if that lands at or
past cell 50 the position is clamped to exactly 50, `finished_at` is stamped,
the id is appended to `finish_order`, 50 points are added with the milestone
converter run (all inside `finishTeam`), and capture logic is skipped — the
teams list changes only at the mover's slot; otherwise the finish order is
untouched and the mover sits at the computed cell, unfinished. -/
theorem claim_C4 (g : BoardB.Game) (now tid : String) (yut : BoardB.YutOutcome)
    (team : BoardB.Team)
    (ht : g.find_team tid = some team)
    (hf : team.finished_at = none)
    (hc : ¬ team.throw_chance = 0) :
    (g.throw_yut now tid yut).1 = true ∧
    (BoardB.FINISH_POS ≤ (max 0 ((team.position : Int) + yut.step)).toNat →
      (g.throw_yut now tid yut).2.2.teams =
        BoardB.updateFirst g.teams tid
          (fun _ => BoardB.extraTeam (BoardB.finishTeam (BoardB.movedTeam team yut) now) yut) ∧
      (g.throw_yut now tid yut).2.2.finish_order = g.finish_order ++ [team.id] ∧
      ∃ t3, (g.throw_yut now tid yut).2.2.find_team tid = some t3 ∧
        t3.position = BoardB.FINISH_POS ∧
        t3.finished_at = some now ∧
        t3.score = team.score + 50) ∧
    ((max 0 ((team.position : Int) + yut.step)).toNat < BoardB.FINISH_POS →
      (g.throw_yut now tid yut).2.2.finish_order = g.finish_order ∧
      ∃ t3, (g.throw_yut now tid yut).2.2.find_team tid = some t3 ∧
        t3.position = (max 0 ((team.position : Int) + yut.step)).toNat ∧
        t3.finished_at = none) := by
  have hid : team.id = tid := BoardB.findTeam_id ht
  have ht' : BoardB.findTeam g.teams tid = some team := ht
  refine ⟨BoardB.throw_yut_ok g now tid yut team ht hf hc, ?_, ?_⟩
  · intro hp
    obtain ⟨_, hteams, hfo⟩ := BoardB.throw_yut_finish g now tid yut team ht hf hc hp
    have hxid : (BoardB.extraTeam (BoardB.finishTeam (BoardB.movedTeam team yut) now) yut).id
        = tid := by
      rw [BoardB.extraTeam_id, BoardB.finishTeam_id, BoardB.movedTeam_id, hid]
    refine ⟨hteams, hfo,
      BoardB.extraTeam (BoardB.finishTeam (BoardB.movedTeam team yut) now) yut, ?_, ?_, ?_, ?_⟩
    · show BoardB.findTeam _ tid = _
      rw [hteams, BoardB.findTeam_updateFirst_keep (fun t _ => hxid), ht']
      rfl
    · rw [BoardB.extraTeam_position, BoardB.finishTeam_position]
    · rw [BoardB.extraTeam_finished_at, BoardB.finishTeam_finished_at]
    · rw [BoardB.extraTeam_score, BoardB.finishTeam_score, BoardB.movedTeam_score]
  · intro hp
    by_cases hnc : (BoardB.movedTeam team yut).position = 0 ∨
        BoardB.capturedOf g (BoardB.movedTeam team yut) = []
    · obtain ⟨_, hteams, hfo⟩ :=
        BoardB.throw_yut_noCapture g now tid yut team ht hf hc hp hnc
      have hxid : (BoardB.extraTeam (BoardB.movedTeam team yut) yut).id = tid := by
        rw [BoardB.extraTeam_id, BoardB.movedTeam_id, hid]
      refine ⟨hfo, BoardB.extraTeam (BoardB.movedTeam team yut) yut, ?_, ?_, ?_⟩
      · show BoardB.findTeam _ tid = _
        rw [hteams, BoardB.findTeam_updateFirst_keep (fun t _ => hxid), ht']
        rfl
      · rw [BoardB.extraTeam_position]
        rfl
      · rw [BoardB.extraTeam_finished_at, BoardB.movedTeam_finished_at, hf]
    · push_neg at hnc
      obtain ⟨hz0, hL⟩ := hnc
      obtain ⟨_, hteams, hfo⟩ :=
        BoardB.throw_yut_capture g now tid yut team ht hf hc (by omega) hp hL
      have hxid : (BoardB.extraTeam (BoardB.captureActor (BoardB.movedTeam team yut)
          (BoardB.capturedOf g (BoardB.movedTeam team yut)).length) yut).id = tid := by
        rw [BoardB.extraTeam_id, BoardB.captureActor_id, BoardB.movedTeam_id, hid]
      have hcapfn_id : ∀ t : BoardB.Team,
          ((if BoardB.capturedBy (BoardB.movedTeam team yut) t then
              { t with position := BoardB.checkpointOf t.position } else t) : BoardB.Team).id
            = t.id := by
        intro t
        split_ifs <;> rfl
      refine ⟨hfo, BoardB.extraTeam (BoardB.captureActor (BoardB.movedTeam team yut)
        (BoardB.capturedOf g (BoardB.movedTeam team yut)).length) yut, ?_, ?_, ?_⟩
      · show BoardB.findTeam _ tid = _
        rw [hteams, BoardB.findTeam_updateFirst_keep (fun t _ => hxid),
          BoardB.findTeam_map hcapfn_id, ht']
        rfl
      · rw [BoardB.extraTeam_position, BoardB.captureActor_position]
        rfl
      · rw [BoardB.extraTeam_finished_at, BoardB.captureActor_finished_at,
          BoardB.movedTeam_finished_at, hf]

/-- Witness for C4: a backdo at cell 0 leaves the team at 0 and unfinished;
a `mo` (+5) from cell 48 finishes at exactly 50 with +50 points and one
finish-order entry. -/
theorem claim_C4_witness :
    (∃ t3, (({ teams := [⟨"t1", "A", 0, 0, 1, 0, 0, none, BoardB.CatMap.zero, 0,
          BoardB.CatMap.zero⟩] } :
        BoardB.Game).throw_yut "now" "t1" ⟨"backdo", "빽도", -1, 4, 0⟩).2.2.find_team "t1" =
        some t3 ∧
      t3.position = (max 0 ((0 : Int) + (-1))).toNat ∧
      t3.finished_at = none) ∧
    ((({ teams := [⟨"t1", "A", 3, 0, 1, 0, 48, none, BoardB.CatMap.zero, 0,
          BoardB.CatMap.zero⟩] } :
        BoardB.Game).throw_yut "now" "t1" ⟨"mo", "모", 5, 8, 1⟩).2.2.finish_order =
      [] ++ ["t1"] ∧
    ∃ t3, (({ teams := [⟨"t1", "A", 3, 0, 1, 0, 48, none, BoardB.CatMap.zero, 0,
          BoardB.CatMap.zero⟩] } :
        BoardB.Game).throw_yut "now" "t1" ⟨"mo", "모", 5, 8, 1⟩).2.2.find_team "t1" =
        some t3 ∧
      t3.position = BoardB.FINISH_POS ∧
      t3.finished_at = some "now" ∧
      t3.score = 3 + 50) := by
  have h1 := (claim_C4
    { teams := [⟨"t1", "A", 0, 0, 1, 0, 0, none, BoardB.CatMap.zero, 0, BoardB.CatMap.zero⟩] }
    "now" "t1" ⟨"backdo", "빽도", -1, 4, 0⟩
    ⟨"t1", "A", 0, 0, 1, 0, 0, none, BoardB.CatMap.zero, 0, BoardB.CatMap.zero⟩
    (by decide) (by decide) (by decide)).2.2 (by decide)
  have h2 := (claim_C4
    { teams := [⟨"t1", "A", 3, 0, 1, 0, 48, none, BoardB.CatMap.zero, 0, BoardB.CatMap.zero⟩] }
    "now" "t1" ⟨"mo", "모", 5, 8, 1⟩
    ⟨"t1", "A", 3, 0, 1, 0, 48, none, BoardB.CatMap.zero, 0, BoardB.CatMap.zero⟩
    (by decide) (by decide) (by decide)).2.1 (by decide)
  exact ⟨h1.2, h2.2.1, h2.2.2⟩

/-- C5: on a throw that does not finish, landing on cell `p` with `0 < p < 50`
reverts every other unfinished team standing exactly on `p` to
`floor(p/10)*10` and leaves every other team untouched, and if anyone was
captured the mover is written back as `extraTeam (captureActor …)` — that is,
`+30 ⋅ capturedCount` points, `+capturedCount` throw chances, and another
milestone run; landing on cell 0 captures nobody.  (Landing on cell 50 is the
finish case, excluded by the premise, and finished occupants are excluded by
the revert condition.) -/
theorem claim_C5 (g : BoardB.Game) (now tid : String) (yut : BoardB.YutOutcome)
    (team : BoardB.Team)
    (hnd : (g.teams.map BoardB.Team.id).Nodup)
    (ht : g.find_team tid = some team)
    (hf : team.finished_at = none)
    (hc : ¬ team.throw_chance = 0)
    (hp1 : (BoardB.movedTeam team yut).position < BoardB.FINISH_POS) :
    (0 < (BoardB.movedTeam team yut).position →
      (∀ t ∈ g.teams, t.id ≠ tid →
        (g.throw_yut now tid yut).2.2.find_team t.id =
          some (if t.finished_at = none ∧ t.position = (BoardB.movedTeam team yut).position
            then { t with position := BoardB.checkpointOf t.position } else t)) ∧
      (BoardB.capturedOf g (BoardB.movedTeam team yut) ≠ [] →
        (g.throw_yut now tid yut).2.2.find_team tid =
          some (BoardB.extraTeam
            (BoardB.captureActor (BoardB.movedTeam team yut)
              (BoardB.capturedOf g (BoardB.movedTeam team yut)).length) yut))) ∧
    ((BoardB.movedTeam team yut).position = 0 →
      ∀ t ∈ g.teams, t.id ≠ tid →
        (g.throw_yut now tid yut).2.2.find_team t.id = some t) := by
  have hid : team.id = tid := BoardB.findTeam_id ht
  have hmtid : (BoardB.movedTeam team yut).id = tid := hid
  have hcapfn_id : ∀ t : BoardB.Team,
      ((if BoardB.capturedBy (BoardB.movedTeam team yut) t then
          { t with position := BoardB.checkpointOf t.position } else t) : BoardB.Team).id
        = t.id := by
    intro t
    split_ifs <;> rfl
  constructor
  · intro hp0
    by_cases hL : BoardB.capturedOf g (BoardB.movedTeam team yut) = []
    · -- nobody stands on the cell: nothing is reverted
      obtain ⟨_, hteams, _⟩ :=
        BoardB.throw_yut_noCapture g now tid yut team ht hf hc hp1 (Or.inr hL)
      have hxid : (BoardB.extraTeam (BoardB.movedTeam team yut) yut).id = tid := by
        rw [BoardB.extraTeam_id, BoardB.movedTeam_id, hid]
      refine ⟨?_, fun hne => absurd hL hne⟩
      intro t htm hne
      have hnotcap : ¬ (t.finished_at = none ∧
          t.position = (BoardB.movedTeam team yut).position) := by
        intro hcap
        have : t ∈ BoardB.capturedOf g (BoardB.movedTeam team yut) := by
          unfold BoardB.capturedOf
          refine List.mem_filter.mpr ⟨htm, ?_⟩
          simp only [decide_eq_true_eq]
          exact ⟨fun h => hne (h ▸ hmtid ▸ rfl) , hcap.1, hcap.2⟩
        rw [hL] at this
        simp at this
      rw [if_neg hnotcap]
      show BoardB.findTeam _ t.id = _
      rw [hteams, BoardB.findTeam_updateFirst_keep_ne (fun u _ => hxid) hne,
        BoardB.findTeam_nodup_self hnd htm]
    · obtain ⟨_, hteams, _⟩ :=
        BoardB.throw_yut_capture g now tid yut team ht hf hc hp0 hp1 hL
      have hxid : (BoardB.extraTeam (BoardB.captureActor (BoardB.movedTeam team yut)
          (BoardB.capturedOf g (BoardB.movedTeam team yut)).length) yut).id = tid := by
        rw [BoardB.extraTeam_id, BoardB.captureActor_id, BoardB.movedTeam_id, hid]
      constructor
      · intro t htm hne
        have hiff : BoardB.capturedBy (BoardB.movedTeam team yut) t ↔
            (t.finished_at = none ∧
              t.position = (BoardB.movedTeam team yut).position) := by
          unfold BoardB.capturedBy
          constructor
          · rintro ⟨_, h2, h3⟩
            exact ⟨h2, h3⟩
          · rintro ⟨h2, h3⟩
            exact ⟨fun h => hne (h ▸ hmtid ▸ rfl), h2, h3⟩
        show BoardB.findTeam _ t.id = _
        rw [hteams, BoardB.findTeam_updateFirst_keep_ne (fun u _ => hxid) hne,
          BoardB.findTeam_map hcapfn_id, BoardB.findTeam_nodup_self hnd htm]
        simp only [Option.map_some']
        by_cases hcap : BoardB.capturedBy (BoardB.movedTeam team yut) t
        · rw [if_pos hcap, if_pos (hiff.mp hcap)]
        · rw [if_neg hcap, if_neg (fun h => hcap (hiff.mpr h))]
      · intro _
        have ht' : BoardB.findTeam g.teams tid = some team := ht
        show BoardB.findTeam _ tid = _
        rw [hteams, BoardB.findTeam_updateFirst_keep (fun u _ => hxid),
          BoardB.findTeam_map hcapfn_id, ht']
        rfl
  · intro hz t htm hne
    obtain ⟨_, hteams, _⟩ :=
      BoardB.throw_yut_noCapture g now tid yut team ht hf hc hp1 (Or.inl hz)
    have hxid : (BoardB.extraTeam (BoardB.movedTeam team yut) yut).id = tid := by
      rw [BoardB.extraTeam_id, BoardB.movedTeam_id, hid]
    show BoardB.findTeam _ t.id = _
    rw [hteams, BoardB.findTeam_updateFirst_keep_ne (fun u _ => hxid) hne,
      BoardB.findTeam_nodup_self hnd htm]

/-- Witness for C5: mover at cell 4 throws `do` (+1) onto cell 5 occupied by
an unfinished opponent: the opponent reverts to the cell-0 checkpoint and the
mover is written back with the capture bonus; a backdo onto cell 0 leaves the
opponent standing there untouched. -/
theorem claim_C5_witness :
    ((({ teams := [⟨"t1", "A", 0, 0, 1, 0, 4, none, BoardB.CatMap.zero, 0,
          BoardB.CatMap.zero⟩,
        ⟨"t2", "B", 0, 0, 0, 0, 5, none, BoardB.CatMap.zero, 0,
          BoardB.CatMap.zero⟩] } :
        BoardB.Game).throw_yut "now" "t1" ⟨"do", "도", 1, 34, 0⟩).2.2.find_team "t2" =
      some (if (none : Option String) = none ∧ 5 =
          (BoardB.movedTeam
            ⟨"t1", "A", 0, 0, 1, 0, 4, none, BoardB.CatMap.zero, 0, BoardB.CatMap.zero⟩
            ⟨"do", "도", 1, 34, 0⟩).position
        then { (⟨"t2", "B", 0, 0, 0, 0, 5, none, BoardB.CatMap.zero, 0,
            BoardB.CatMap.zero⟩ : BoardB.Team) with
            position := BoardB.checkpointOf 5 }
        else ⟨"t2", "B", 0, 0, 0, 0, 5, none, BoardB.CatMap.zero, 0, BoardB.CatMap.zero⟩)) ∧
    ((({ teams := [⟨"t1", "A", 0, 0, 1, 0, 1, none, BoardB.CatMap.zero, 0,
          BoardB.CatMap.zero⟩,
        ⟨"t2", "B", 0, 0, 0, 0, 0, none, BoardB.CatMap.zero, 0,
          BoardB.CatMap.zero⟩] } :
        BoardB.Game).throw_yut "now" "t1" ⟨"backdo", "빽도", -1, 4, 0⟩).2.2.find_team "t2" =
      some ⟨"t2", "B", 0, 0, 0, 0, 0, none, BoardB.CatMap.zero, 0, BoardB.CatMap.zero⟩) := by
  have h1 := (claim_C5
    { teams := [⟨"t1", "A", 0, 0, 1, 0, 4, none, BoardB.CatMap.zero, 0, BoardB.CatMap.zero⟩,
      ⟨"t2", "B", 0, 0, 0, 0, 5, none, BoardB.CatMap.zero, 0, BoardB.CatMap.zero⟩] }
    "now" "t1" ⟨"do", "도", 1, 34, 0⟩
    ⟨"t1", "A", 0, 0, 1, 0, 4, none, BoardB.CatMap.zero, 0, BoardB.CatMap.zero⟩
    (by decide) (by decide) (by decide) (by decide) (by decide)).1 (by decide)
  have h2 := (claim_C5
    { teams := [⟨"t1", "A", 0, 0, 1, 0, 1, none, BoardB.CatMap.zero, 0, BoardB.CatMap.zero⟩,
      ⟨"t2", "B", 0, 0, 0, 0, 0, none, BoardB.CatMap.zero, 0, BoardB.CatMap.zero⟩] }
    "now" "t1" ⟨"backdo", "빽도", -1, 4, 0⟩
    ⟨"t1", "A", 0, 0, 1, 0, 1, none, BoardB.CatMap.zero, 0, BoardB.CatMap.zero⟩
    (by decide) (by decide) (by decide) (by decide) (by decide)).2 (by decide)
  refine ⟨?_, ?_⟩
  · have := h1.1 ⟨"t2", "B", 0, 0, 0, 0, 5, none, BoardB.CatMap.zero, 0, BoardB.CatMap.zero⟩
      (by decide) (by decide)
    exact this
  · exact h2 ⟨"t2", "B", 0, 0, 0, 0, 0, none, BoardB.CatMap.zero, 0, BoardB.CatMap.zero⟩
      (by decide) (by decide)

/-- A one-team fixture game used to evaluate the claims on concrete data. -/
def exTeam1 : BoardB.Team :=
  ⟨"t1", "A", 0, 0, 0, 0, 0, none, BoardB.CatMap.zero, 0, BoardB.CatMap.zero⟩

def exGame1 : BoardB.Game := { teams := [exTeam1] }

def exYutDo : BoardB.YutOutcome := ⟨"do", "도", 1, 34, 0⟩

/-- C6: each variant-B operation fails exactly on its validation conditions —
`add_team` on an empty trimmed or duplicate name, `record_activity` on an
unknown team, unknown difficulty, unknown category or participant count < 1,
`throw_yut` on an unknown team, a finished team or an empty throw budget —
and every failure returns a non-empty reason with the game state (teams,
logs, finish order, and hence the persisted snapshot) unchanged. -/
theorem claim_C6 (g : BoardB.Game) (now newId rawName tid difficulty category : String)
    (pc : Int) (title : String) (yut : BoardB.YutOutcome) :
    (((g.add_team now newId rawName).1 = false ↔
        (rawName.trim = "" ∨ ∃ t ∈ g.teams, t.name = rawName.trim)) ∧
      ((g.add_team now newId rawName).1 = false →
        (g.add_team now newId rawName).2.2 = g ∧
        (g.add_team now newId rawName).2.1 ≠ "")) ∧
    (((g.record_activity now tid difficulty category pc title).1 = false ↔
        (g.find_team tid = none ∨ BoardB.DIFFICULTY_POINTS difficulty = none ∨
          category ∉ BoardB.CATEGORIES ∨ pc < 1)) ∧
      ((g.record_activity now tid difficulty category pc title).1 = false →
        (g.record_activity now tid difficulty category pc title).2.2 = g ∧
        (g.record_activity now tid difficulty category pc title).2.1 ≠ "")) ∧
    (((g.throw_yut now tid yut).1 = false ↔
        (g.find_team tid = none ∨ ∃ t, g.find_team tid = some t ∧
          (t.finished_at.isSome ∨ t.throw_chance = 0))) ∧
      ((g.throw_yut now tid yut).1 = false →
        (g.throw_yut now tid yut).2.2 = g ∧
        (g.throw_yut now tid yut).2.1 ≠ "")) :=
  ⟨BoardB.add_team_fail g now newId rawName,
   BoardB.record_activity_fail g now tid difficulty category pc title,
   BoardB.throw_yut_fail_iff g now tid yut⟩

/-- Witness for C6: an unknown team id in `record_activity` and a throw with
zero chances both fail and leave the one-team game unchanged.  (The name
validation of `add_team` goes through `String.trim`, whose byte-level
recursion does not reduce in the kernel, so the record/throw conjuncts carry
the concrete evidence.) -/
theorem claim_C6_witness :
    (exGame1.record_activity "now" "zz" "easy" "talk" 2 "").1 = false ∧
    (exGame1.record_activity "now" "zz" "easy" "talk" 2 "").2.2 = exGame1 ∧
    (exGame1.throw_yut "now" "t1" exYutDo).1 = false ∧
    (exGame1.throw_yut "now" "t1" exYutDo).2.2 = exGame1 := by
  have h := claim_C6 exGame1 "now" "id2" "A" "zz" "easy" "talk" 2 "" exYutDo
  have h2 := claim_C6 exGame1 "now" "id2" "A" "t1" "easy" "talk" 2 "" exYutDo
  have hr : (exGame1.record_activity "now" "zz" "easy" "talk" 2 "").1 = false :=
    h.2.1.1.mpr (Or.inl (by decide))
  have hy : (exGame1.throw_yut "now" "t1" exYutDo).1 = false :=
    h2.2.2.1.mpr (Or.inr ⟨exTeam1, by decide, Or.inr (by decide)⟩)
  exact ⟨hr, (h.2.1.2 hr).1, hy, (h2.2.2.2 hy).1⟩

/-- C7: in every reachable variant-B state, every team's position lies in
`[0, 50]`, and the three conditions "finished_at set", "position = 50" and
"id ∈ finish_order" are pairwise equivalent; `finish_order` has no
duplicates. -/
theorem claim_C7 (g : BoardB.Game) (hr : BoardB.Reachable g) :
    (∀ t ∈ g.teams,
      0 ≤ t.position ∧ t.position ≤ BoardB.FINISH_POS ∧
      (t.finished_at.isSome ↔ t.position = BoardB.FINISH_POS) ∧
      (t.finished_at.isSome ↔ t.id ∈ g.finish_order) ∧
      (t.position = BoardB.FINISH_POS ↔ t.id ∈ g.finish_order)) ∧
    g.finish_order.Nodup := by
  have hinv := BoardB.reachable_inv hr
  refine ⟨?_, hinv.2.1⟩
  intro t htm
  obtain ⟨h1, h2, h3, _⟩ := hinv.2.2.2 t htm
  exact ⟨Nat.zero_le _, h1, h2, h3, h2.symm.trans h3⟩

/-- Witness for C7: the state after adding one team to a fresh game is
reachable, and the invariant evaluates there. -/
theorem claim_C7_witness :
    (∀ t ∈ (BoardB.Game.init.add_team "now" "t1" "A").2.2.teams,
      0 ≤ t.position ∧ t.position ≤ BoardB.FINISH_POS ∧
      (t.finished_at.isSome ↔ t.position = BoardB.FINISH_POS) ∧
      (t.finished_at.isSome ↔
        t.id ∈ (BoardB.Game.init.add_team "now" "t1" "A").2.2.finish_order) ∧
      (t.position = BoardB.FINISH_POS ↔
        t.id ∈ (BoardB.Game.init.add_team "now" "t1" "A").2.2.finish_order)) ∧
    (BoardB.Game.init.add_team "now" "t1" "A").2.2.finish_order.Nodup :=
  claim_C7 (BoardB.Game.init.add_team "now" "t1" "A").2.2
    (BoardB.Reachable.step BoardB.Reachable.init
      (BoardB.Step.add_team BoardB.Game.init "now" "t1" "A" (by decide)))

/-- C8: `sorted_teams` returns a permutation of the team list ordered by the
variant's sort key — variant A by score descending, then mission count
descending, then name ascending; variant B by finish rank (finish-order index
for finished teams, a `10^9` sentinel for unfinished ones), then score,
position and mission count descending — and therefore, in variant B, once an
unfinished team appears in the ranking every later team is also unfinished,
i.e. every finished team outranks every unfinished team regardless of score
(as long as the finish order has fewer than `10^9` entries, which the
sentinel encoding requires). -/
theorem claim_C8 (gA : BoardA.Game) (gB : BoardB.Game)
    (hlen : gB.finish_order.length ≤ 10 ^ 9) :
    (gA.sorted_teams.Perm gA.teams ∧
      gA.sorted_teams.Pairwise
        (fun a b => BoardA.keyLeA (BoardA.sortKeyA a) (BoardA.sortKeyA b))) ∧
    (gB.sorted_teams.Perm gB.teams ∧
      gB.sorted_teams.Pairwise
        (fun a b => BoardB.keyLeB (BoardB.sortKeyB gB.finish_order a)
          (BoardB.sortKeyB gB.finish_order b)) ∧
      gB.sorted_teams.Pairwise
        (fun a b => a.id ∉ gB.finish_order → b.id ∉ gB.finish_order)) :=
  ⟨⟨BoardA.Game.sorted_teams_perm_A gA, BoardA.Game.sorted_teams_sorted_A gA⟩,
   BoardB.Game.sorted_teams_perm gB, BoardB.Game.sorted_teams_sorted gB,
   BoardB.Game.sorted_teams_finished_first gB hlen⟩

/-- Fixture games for the ranking claims: variant A with two equal-score
teams, variant B with a finished low scorer and an unfinished high scorer. -/
def exGameA8 : BoardA.Game :=
  { teams := [⟨"1", "B", 10, 2, BoardB.CatMap.zero, 0, BoardB.CatMap.zero⟩,
    ⟨"2", "A", 10, 2, BoardB.CatMap.zero, 0, BoardB.CatMap.zero⟩] }

def exGameB8 : BoardB.Game :=
  { teams := [⟨"1", "A", 100, 0, 0, 2, 10, none, BoardB.CatMap.zero, 0, BoardB.CatMap.zero⟩,
    ⟨"2", "B", 0, 0, 0, 0, 50, some "x", BoardB.CatMap.zero, 0, BoardB.CatMap.zero⟩],
    finish_order := ["2"] }

/-- Witness for C8: the ordering facts instantiated on the two fixture
games. -/
theorem claim_C8_witness :
    (exGameA8.sorted_teams.Perm exGameA8.teams ∧
      exGameA8.sorted_teams.Pairwise
        (fun a b => BoardA.keyLeA (BoardA.sortKeyA a) (BoardA.sortKeyA b))) ∧
    (exGameB8.sorted_teams.Perm exGameB8.teams ∧
      exGameB8.sorted_teams.Pairwise
        (fun a b => BoardB.keyLeB (BoardB.sortKeyB exGameB8.finish_order a)
          (BoardB.sortKeyB exGameB8.finish_order b)) ∧
      exGameB8.sorted_teams.Pairwise
        (fun a b => a.id ∉ exGameB8.finish_order → b.id ∉ exGameB8.finish_order)) :=
  claim_C8 exGameA8 exGameB8 (by decide)

/-- A stored team dict with score 80 and no `throw_granted_by_score` key: the
claim predicts the loaded value `floor(80/40) = 2`, the code loads `0`. -/
def rawMissing : BoardB.RawTeam :=
  ⟨"t1", "A", 80, 0, 0, BoardB.JsonTgs.missing, 0, none, BoardB.CatMap.zero, 0,
    BoardB.CatMap.zero⟩

/-- Counterexample for C9: a snapshot whose team dict omits
`throw_granted_by_score` loads with the dataclass default `0`, not with the
re-derived `floor(score/40)` — the `isinstance(..., int)` guard accepts the
integer default, so a missing field is never healed. -/
theorem claim_C9_cex :
    ¬ (∀ t ∈ (BoardB.Game.load (BoardB.Store.parsed { teams := [rawMissing] })).teams,
        t.throw_granted_by_score = t.score / BoardB.SCORE_PER_THROW) := by
  intro h
  have := h (BoardB.loadTeam rawMissing) (by decide)
  revert this
  decide

/-- C9 (amended): loading returns the fresh empty state when the store is
absent or fails to parse, and each loaded team's `throw_granted_by_score` is
the stored int when the key holds an int, is re-derived as `floor(score/40)`
only when the key is present with a non-int value, and falls back to the
dataclass default `0` when the key is missing. -/
theorem claim_C9 :
    BoardB.Game.load BoardB.Store.absent = BoardB.Game.init ∧
    BoardB.Game.load BoardB.Store.unparseable = BoardB.Game.init ∧
    ∀ (p : BoardB.Payload) (r : BoardB.RawTeam), r ∈ p.teams →
      ∃ t ∈ (BoardB.Game.load (BoardB.Store.parsed p)).teams,
        t.id = r.id ∧ t.score = r.score ∧
        t.throw_granted_by_score =
          (match r.throw_granted_by_score with
           | BoardB.JsonTgs.jint n => n
           | BoardB.JsonTgs.jother => r.score / BoardB.SCORE_PER_THROW
           | BoardB.JsonTgs.missing => 0) := by
  refine ⟨rfl, rfl, ?_⟩
  intro p r hr
  refine ⟨BoardB.loadTeam r, List.mem_map_of_mem BoardB.loadTeam hr, rfl, rfl, ?_⟩
  cases htgs : r.throw_granted_by_score <;>
    simp [BoardB.loadTeam, BoardB.healTgs, htgs]

/-- Witness for C9: a present non-int value is healed to `floor(80/40) = 2`,
a present int is kept, a missing key falls back to 0. -/
theorem claim_C9_witness :
    (∃ t ∈ (BoardB.Game.load (BoardB.Store.parsed
        { teams := [⟨"t2", "B", 80, 0, 0, BoardB.JsonTgs.jother, 0, none,
          BoardB.CatMap.zero, 0, BoardB.CatMap.zero⟩] })).teams,
      t.id = "t2" ∧ t.score = 80 ∧ t.throw_granted_by_score = 80 / BoardB.SCORE_PER_THROW) ∧
    (∃ t ∈ (BoardB.Game.load (BoardB.Store.parsed { teams := [rawMissing] })).teams,
      t.id = "t1" ∧ t.score = 80 ∧ t.throw_granted_by_score = 0) := by
  obtain ⟨-, -, h⟩ := claim_C9
  constructor
  · obtain ⟨t, hm, h1, h2, h3⟩ := h
      { teams := [⟨"t2", "B", 80, 0, 0, BoardB.JsonTgs.jother, 0, none,
        BoardB.CatMap.zero, 0, BoardB.CatMap.zero⟩] }
      ⟨"t2", "B", 80, 0, 0, BoardB.JsonTgs.jother, 0, none,
        BoardB.CatMap.zero, 0, BoardB.CatMap.zero⟩ (by decide)
    exact ⟨t, hm, h1, h2, h3⟩
  · obtain ⟨t, hm, h1, h2, h3⟩ := h { teams := [rawMissing] } rawMissing (by decide)
    exact ⟨t, hm, h1, h2, h3⟩

/-- C10: a finished team can still record activities — the call succeeds and
its score, mission count and bonuses keep growing, and crossing a score
milestone still adds throw chances — while `throw_yut` permanently rejects
the team with the finished-team reason, leaving the state unchanged. -/
theorem claim_C10 (g : BoardB.Game) (now tid difficulty category : String)
    (pc : Int) (title : String) (yut : BoardB.YutOutcome)
    (t0 : BoardB.Team) (dp : Nat)
    (ht : g.find_team tid = some t0)
    (hfin : t0.finished_at.isSome)
    (hd : BoardB.DIFFICULTY_POINTS difficulty = some dp)
    (hc : category ∈ BoardB.CATEGORIES)
    (hpc : 1 ≤ pc)
    (hgr : t0.throw_granted_by_score = t0.score / BoardB.SCORE_PER_THROW) :
    (g.record_activity now tid difficulty category pc title).1 = true ∧
    (∃ t3, (g.record_activity now tid difficulty category pc title).2.2.find_team tid =
        some t3 ∧
      t3.score = t0.score + BoardB.activityEarned dp pc +
        (BoardB.compute_bonus (BoardB.bumpedTeam t0 dp category pc)).1 ∧
      t3.mission_count = t0.mission_count + 1 ∧
      t3.finished_at = t0.finished_at ∧
      t3.throw_chance = t0.throw_chance +
        (t3.score / BoardB.SCORE_PER_THROW - t0.score / BoardB.SCORE_PER_THROW)) ∧
    g.throw_yut now tid yut = (false, "이미 완주한 팀입니다.", g) := by
  obtain ⟨hok, _, hteams, _, _⟩ :=
    BoardB.record_activity_success g now tid difficulty category pc title t0 dp
      ht hd hc hpc
  have hid : t0.id = tid := BoardB.findTeam_id ht
  have ht' : BoardB.findTeam g.teams tid = some t0 := ht
  have hkeep : ∀ t : BoardB.Team, t.id = tid →
      ((fun _ => BoardB.activityTeam t0 dp category pc) t).id = tid := by
    intro t _
    rw [BoardB.activityTeam_id, hid]
  have hgrle : t0.throw_granted_by_score ≤
      (t0.score + BoardB.activityEarned dp pc +
        (BoardB.compute_bonus (BoardB.bumpedTeam t0 dp category pc)).1) /
        BoardB.SCORE_PER_THROW := by
    rw [hgr]
    exact Nat.div_le_div_right (by omega)
  obtain ⟨hgr3, hch3⟩ := BoardB.activityTeam_granted t0 dp category pc hgrle
  refine ⟨hok, ⟨BoardB.activityTeam t0 dp category pc, ?_, ?_, ?_, ?_, ?_⟩, ?_⟩
  · show BoardB.findTeam _ tid = _
    rw [hteams, BoardB.findTeam_updateFirst_keep hkeep, ht']
    rfl
  · exact BoardB.activityTeam_score ..
  · exact BoardB.activityTeam_mission_count ..
  · exact BoardB.activityTeam_finished_at ..
  · rw [hch3, hgr]
  · exact (BoardB.throw_yut_fail_cases g now tid yut).2.1 t0 ht hfin

/-- Witness for C10: a finished team at cell 50 with 30 points records a
`hard`/`talk` activity with 3 participants — it succeeds, the score rises to
90 and the milestone grants `floor(90/40) − floor(30/40) = 2` chances — while
the same team's throw is rejected outright. -/
theorem claim_C10_witness :
    ((({ teams := [⟨"t1", "A", 30, 0, 0, 0, 50, some "x", BoardB.CatMap.zero, 0,
          BoardB.CatMap.zero⟩], finish_order := ["t1"] } :
        BoardB.Game).record_activity "now" "t1" "hard" "talk" 3 "").1 = true ∧
      (∃ t3, (({ teams := [⟨"t1", "A", 30, 0, 0, 0, 50, some "x", BoardB.CatMap.zero, 0,
            BoardB.CatMap.zero⟩], finish_order := ["t1"] } :
          BoardB.Game).record_activity "now" "t1" "hard" "talk" 3 "").2.2.find_team "t1" =
          some t3 ∧
        t3.score = 30 + BoardB.activityEarned 30 3 +
          (BoardB.compute_bonus (BoardB.bumpedTeam
            ⟨"t1", "A", 30, 0, 0, 0, 50, some "x", BoardB.CatMap.zero, 0,
              BoardB.CatMap.zero⟩ 30 "talk" 3)).1 ∧
        t3.mission_count = 0 + 1 ∧
        t3.finished_at = some "x" ∧
        t3.throw_chance = 0 +
          (t3.score / BoardB.SCORE_PER_THROW - 30 / BoardB.SCORE_PER_THROW)) ∧
      ({ teams := [⟨"t1", "A", 30, 0, 0, 0, 50, some "x", BoardB.CatMap.zero, 0,
          BoardB.CatMap.zero⟩], finish_order := ["t1"] } :
        BoardB.Game).throw_yut "now" "t1" exYutDo =
        (false, "이미 완주한 팀입니다.",
          { teams := [⟨"t1", "A", 30, 0, 0, 0, 50, some "x", BoardB.CatMap.zero, 0,
            BoardB.CatMap.zero⟩], finish_order := ["t1"] })) :=
  claim_C10
    { teams := [⟨"t1", "A", 30, 0, 0, 0, 50, some "x", BoardB.CatMap.zero, 0,
      BoardB.CatMap.zero⟩], finish_order := ["t1"] }
    "now" "t1" "hard" "talk" 3 "" exYutDo
    ⟨"t1", "A", 30, 0, 0, 0, 50, some "x", BoardB.CatMap.zero, 0, BoardB.CatMap.zero⟩ 30
    (by decide) (by decide) (by decide) (by decide) (by decide) (by decide)
